import Mathlib

/-!
A verification development for the session core of a terminal Bluetooth
manager.  Definitions are shallow embeddings of the Go source:

* `api/bluetooth/macaddress.go` - MAC address parsing and formatting,
* `api/helpers/sessionstore`    - the adapter/device object store,
* `linux/internal/dbushelper/pathconverter.go` - the DBus path converter,
* `shim/adapter.go`, `shim/obex.go`, `shim/internal/commands/options.go`
  - the RPC transport (command execution, timeouts, event dispatch),
* `ui/app/views/progressview.go` - transfer operations and file saving.

Machine integers are modelled as `Nat`/`Int`; fallible operations return
`Except`/`Option`; the concurrent maps (`xsync.MapOf`) are modelled as
association lists keyed by decidable-equality keys.
-/

set_option maxRecDepth 16000

namespace Bluetuith

/-! ## Error kinds (api/errorkinds/errors.go) -/

/-- The error values declared in `api/errorkinds/errors.go`, as an
enumeration.  Only the kinds reached by the modelled code are listed. -/
inductive BtError where
  | sessionStart
  | sessionStop
  | sessionNotExist
  | methodCall
  | methodCanceled
  | methodTimeout
  | invalidAddress
  | adapterNotFound
  | deviceNotFound
  | notSupported
  | noAdaptersFound  -- the ad-hoc `errors.New("no adapters found")` in SessionStore.Adapters
  | ioError          -- a raw operating-system error surfaced by os.* calls
  deriving DecidableEq, Repr

/-! ## MAC addresses (api/bluetooth/macaddress.go)

A `MacAddress` in the source is `[6]byte`; here it is a `List Nat` of
length 6 whose entries are below 256.  Index `i` corresponds to `mac[i]`
in the Go code (index 5 is rendered first by the formatter). -/

/-- Validity of a modelled MAC byte array: six bytes, each below 256. -/
def MacValid (m : List Nat) : Prop := m.length = 6 ∧ ∀ b ∈ m, b < 256

instance : DecidablePred MacValid := fun m => by
  unfold MacValid; infer_instance

/-- The nibble decoder inside `parseMacFromBuffer`: the `switch` over
character ranges `0-9`, `A-F`, `a-f`; any other character is rejected. -/
def hexNibble (c : Char) : Option Nat :=
  if Char.toNat '0' ≤ c.toNat ∧ c.toNat ≤ Char.toNat '9' then
    some (c.toNat - Char.toNat '0')
  else if Char.toNat 'A' ≤ c.toNat ∧ c.toNat ≤ Char.toNat 'F' then
    some (c.toNat - Char.toNat 'A' + 0xA)
  else if Char.toNat 'a' ≤ c.toNat ∧ c.toNat ≤ Char.toNat 'f' then
    some (c.toNat - Char.toNat 'a' + 0xA)
  else
    none

/-- One write of `parseMacFromBuffer`:
`mac[macIndex/2] |= nibble` when `macIndex%2 == 0`, otherwise
`mac[macIndex/2] |= nibble << 4`.  Go `/` and `%` on signed integers
truncate toward zero, hence `Int.div`/`Int.mod`. -/
def macOrAt (mac : List Nat) (idx : Int) (nibble : Nat) : List Nat :=
  let i := (Int.tdiv idx 2).toNat
  if Int.tmod idx 2 = 0 then
    mac.set i (mac.getD i 0 ||| nibble)
  else
    mac.set i (mac.getD i 0 ||| (nibble <<< 4))

/-- The read loop of `parseMacFromBuffer`: colons are skipped wherever
they appear, a non-hex character aborts with an error, and a hex digit
is written unless `macIndex < -1` (too many digits). -/
def parseMacLoop : List Char → List Nat → Int → Option (List Nat × Int)
  | [], mac, idx => some (mac, idx)
  | c :: rest, mac, idx =>
    if c = ':' then
      parseMacLoop rest mac idx
    else
      match hexNibble c with
      | none => none
      | some nibble =>
        if idx < -1 then none
        else parseMacLoop rest (macOrAt mac idx nibble) (idx - 1)

/-- `ParseMAC` / `parseMacFromBuffer`: run the loop from
`macIndex = MaxAddressBytesLength = 11` on a zeroed array and require the
final index to be exactly `-1` (twelve digits consumed). -/
def parseMac (s : String) : Except BtError (List Nat) :=
  match parseMacLoop s.data (List.replicate 6 0) 11 with
  | none => .error .invalidAddress
  | some (mac, idx) =>
    if idx ≠ -1 then .error .invalidAddress else .ok mac

/-- The hex digit emitter inside `byteBuffer`: digits `0-9` then
upper-case letters `A-F`. -/
def hexDigitChar (n : Nat) : Char :=
  if n ≤ 9 then Char.ofNat (Char.toNat '0' + n)
  else Char.ofNat (Char.toNat 'A' + n - 10)

/-- The two hex characters `byteBuffer` writes for one byte:
first the high nibble `c >> 4`, then the low nibble `c & 0x0f`. -/
def byteHexChars (c : Nat) : List Char :=
  [hexDigitChar (c >>> 4), hexDigitChar (c &&& 0xf)]

/-- `MacAddress.byteBuffer`: iterate `i = 5 .. 0`, writing a colon
before every byte except the first. -/
def macToChars (m : List Nat) : List Char :=
  ([5, 4, 3, 2, 1, 0] : List Nat).flatMap fun i =>
    (if i ≠ 5 then [':'] else []) ++ byteHexChars (m.getD i 0)

/-- `MacAddress.String`. -/
def macString (m : List Nat) : String := ⟨macToChars m⟩

/-! Characterisation machinery for the parse loop. -/

/-- The non-colon characters of a buffer, i.e. the characters the parse
loop actually decodes. -/
def macHexChars (cs : List Char) : List Char := cs.filter (· ≠ ':')

/-- Sequentially write a list of decoded nibbles starting at a given
index, as the parse loop does once colons are removed. -/
def writeDigits : List Nat → List Nat → Int → List Nat
  | mac, [], _ => mac
  | mac, n :: rest, idx => writeDigits (macOrAt mac idx n) rest (idx - 1)

theorem parseMacLoop_characterization (cs : List Char) :
    ∀ (mac : List Nat) (idx : Int), -2 ≤ idx →
      parseMacLoop cs mac idx =
        if (∀ c ∈ macHexChars cs, (hexNibble c).isSome)
            ∧ ((macHexChars cs).length : Int) ≤ idx + 2 then
          some (writeDigits mac ((macHexChars cs).filterMap hexNibble) idx,
                idx - (macHexChars cs).length)
        else none := by
  induction cs with
  | nil =>
    intro mac idx hidx
    simp only [parseMacLoop, macHexChars, List.filter_nil, List.not_mem_nil,
      false_implies, implies_true, List.length_nil, Nat.cast_zero, true_and,
      List.filterMap_nil, writeDigits, if_pos (by omega : (0 : Int) ≤ idx + 2)]
    simp
  | cons c rest ih =>
    intro mac idx hidx
    by_cases hc : c = ':'
    · subst hc
      simp only [parseMacLoop, if_pos rfl]
      rw [ih mac idx hidx]
      simp [macHexChars]
    · simp only [parseMacLoop, if_neg hc]
      have hfil : macHexChars (c :: rest) = c :: macHexChars rest := by
        simp [macHexChars, hc]
      cases hnib : hexNibble c with
      | none =>
        rw [hfil]
        simp [hnib]
      | some nibble =>
        show (if idx < -1 then none
          else parseMacLoop rest (macOrAt mac idx nibble) (idx - 1)) = _
        by_cases hlt : idx < -1
        · have hlen : ¬ ((∀ x ∈ macHexChars (c :: rest), (hexNibble x).isSome)
              ∧ ((macHexChars (c :: rest)).length : Int) ≤ idx + 2) := by
            rw [hfil]
            rintro ⟨-, h2⟩
            simp only [List.length_cons] at h2
            push_cast at h2
            omega
          rw [if_pos hlt, if_neg hlen]
        · rw [if_neg hlt, ih (macOrAt mac idx nibble) (idx - 1) (by omega), hfil]
          by_cases hall : (∀ x ∈ macHexChars rest, (hexNibble x).isSome)
              ∧ ((macHexChars rest).length : Int) ≤ idx - 1 + 2
          · have hcond : (∀ x ∈ c :: macHexChars rest, (hexNibble x).isSome)
                ∧ ((c :: macHexChars rest).length : Int) ≤ idx + 2 := by
              refine ⟨fun x hx => ?_, ?_⟩
              · rcases List.mem_cons.mp hx with h | h
                · rw [h, hnib]; rfl
                · exact hall.1 x h
              · have h2 := hall.2
                simp only [List.length_cons]
                push_cast at h2 ⊢
                omega
            rw [if_pos hall, if_pos hcond]
            simp only [List.filterMap_cons, hnib, writeDigits,
              Option.some.injEq, Prod.mk.injEq, List.length_cons]
            exact ⟨trivial, by push_cast; ring⟩
          · have hcond : ¬ ((∀ x ∈ c :: macHexChars rest, (hexNibble x).isSome)
                ∧ ((c :: macHexChars rest).length : Int) ≤ idx + 2) := by
              rintro ⟨h1, h2⟩
              refine hall ⟨fun x hx => h1 x (List.mem_cons_of_mem c hx), ?_⟩
              simp only [List.length_cons] at h2
              push_cast at h2 ⊢
              omega
            rw [if_neg hall, if_neg hcond]

/-- Corollary shape of `parseMac`: it succeeds exactly when every
non-colon character is a hex digit and there are exactly twelve of them,
and then returns the bytes assembled by the write loop. -/
theorem parseMac_eq (s : String) :
    parseMac s =
      if (∀ c ∈ macHexChars s.data, (hexNibble c).isSome)
          ∧ (macHexChars s.data).length = 12 then
        .ok (writeDigits (List.replicate 6 0)
              ((macHexChars s.data).filterMap hexNibble) 11)
      else .error .invalidAddress := by
  unfold parseMac
  rw [parseMacLoop_characterization s.data (List.replicate 6 0) 11 (by omega)]
  by_cases hall : ∀ c ∈ macHexChars s.data, (hexNibble c).isSome
  · by_cases hle : ((macHexChars s.data).length : Int) ≤ 11 + 2
    · rw [if_pos ⟨hall, hle⟩]
      by_cases h12 : (macHexChars s.data).length = 12
      · rw [if_pos ⟨hall, h12⟩]
        simp only [h12]
        norm_num
      · rw [if_neg (fun h => h12 h.2)]
        have : (11 : Int) - (macHexChars s.data).length ≠ -1 := by
          intro h
          exact h12 (by omega)
        simp only [if_pos this]
    · rw [if_neg (fun h => hle h.2), if_neg ?_]
      rintro ⟨-, h12⟩
      exact hle (by rw [h12]; norm_num)
  · rw [if_neg (fun h => hall h.1), if_neg (fun h => hall h.1)]

/-- Upper-case, colon-separated textual form `XX:XX:XX:XX:XX:XX`.
Modelled from the spec: the canonical textual shape of an address, six
two-hex-digit groups separated by colons. -/
def isUpperHexDigit (c : Char) : Bool :=
  (decide (Char.toNat '0' ≤ c.toNat) && decide (c.toNat ≤ Char.toNat '9')) ||
  (decide (Char.toNat 'A' ≤ c.toNat) && decide (c.toNat ≤ Char.toNat 'F'))

/-- Modelled from the spec: whether a string has the exact textual form
`XX:XX:XX:XX:XX:XX` (six two-upper-hex-digit groups, colon separators). -/
def isMacTextForm (s : String) : Bool :=
  match s.data with
  | [a1, a2, c1, b1, b2, c2, d1, d2, c3, e1, e2, c4, f1, f2, c5, g1, g2] =>
    ([c1, c2, c3, c4, c5].all (· = ':')) &&
    ([a1, a2, b1, b2, d1, d2, e1, e2, f1, f2, g1, g2].all isUpperHexDigit)
  | _ => false

/-- Whether `parseMac` considers the input well formed: every non-colon
character is a hex digit and there are exactly twelve of them. -/
def goodMacInput (s : String) : Prop :=
  (∀ c ∈ macHexChars s.data, (hexNibble c).isSome)
    ∧ (macHexChars s.data).length = 12

/-- Upper-casing of a lower-case hex letter, as done implicitly by
formatting the parsed byte with upper-case digits. -/
def upperHexChar (c : Char) : Char :=
  if Char.toNat 'a' ≤ c.toNat ∧ c.toNat ≤ Char.toNat 'f' then
    Char.ofNat (c.toNat - 32)
  else c

/-- Insert a colon after every pair of characters. -/
def groupColons : List Char → List Char
  | a :: b :: c :: rest => a :: b :: ':' :: groupColons (c :: rest)
  | l => l

/-- Modelled from the spec: the canonical textual form of an accepted
input string, i.e. the colon-separated upper-hex rendering of the same
six bytes (same hex digits, upper-cased, regrouped two by two). -/
def canonicalMacForm (s : String) : String :=
  ⟨groupColons ((macHexChars s.data).map upperHexChar)⟩

theorem hexNibble_isSome_of_upper {c : Char} (h : isUpperHexDigit c = true) :
    (hexNibble c).isSome := by
  simp only [isUpperHexDigit, Bool.or_eq_true, Bool.and_eq_true,
    decide_eq_true_eq] at h
  unfold hexNibble
  rcases h with ⟨h1, h2⟩ | ⟨h1, h2⟩
  · rw [if_pos ⟨h1, h2⟩]; rfl
  · by_cases h0 : Char.toNat '0' ≤ c.toNat ∧ c.toNat ≤ Char.toNat '9'
    · rw [if_pos h0]; rfl
    · rw [if_neg h0, if_pos ⟨h1, h2⟩]; rfl

theorem upperHexDigit_ne_colon {c : Char} (h : isUpperHexDigit c = true) :
    c ≠ ':' := by
  simp only [isUpperHexDigit, Bool.or_eq_true, Bool.and_eq_true,
    decide_eq_true_eq] at h
  intro hc
  subst hc
  revert h
  decide

theorem hexNibble_lt {c : Char} {n : Nat} (h : hexNibble c = some n) :
    n < 16 := by
  unfold hexNibble at h
  simp only [show Char.toNat '0' = 48 from rfl, show Char.toNat '9' = 57 from rfl,
    show Char.toNat 'A' = 65 from rfl, show Char.toNat 'F' = 70 from rfl,
    show Char.toNat 'a' = 97 from rfl, show Char.toNat 'f' = 102 from rfl] at h
  split at h
  · simp only [Option.some.injEq] at h; omega
  · split at h
    · simp only [Option.some.injEq] at h; omega
    · split at h
      · simp only [Option.some.injEq] at h; omega
      · exact absurd h (by simp)

theorem hexDigitChar_ne_colon {n : Nat} (h : n < 16) :
    hexDigitChar n ≠ ':' := by
  revert h
  revert n
  decide

theorem hexNibble_hexDigitChar : ∀ n < 16, hexNibble (hexDigitChar n) = some n := by
  decide

theorem shiftRight_lt_sixteen {b : Nat} (h : b < 256) : b >>> 4 < 16 := by
  rw [Nat.shiftRight_eq_div_pow]
  omega

theorem and_fifteen_lt_sixteen (b : Nat) : b &&& 0xf < 16 :=
  Nat.lt_succ_of_le (Nat.and_le_right)

theorem nibble_rejoin : ∀ b < 256, (0 ||| ((b >>> 4) <<< 4)) ||| (b &&& 0xf) = b := by
  decide

theorem nibble_split_high : ∀ a < 16, ∀ b < 16,
    ((0 ||| (a <<< 4)) ||| b) >>> 4 = a := by
  decide

theorem nibble_split_low : ∀ a < 16, ∀ b < 16,
    ((0 ||| (a <<< 4)) ||| b) &&& 0xf = b := by
  decide

theorem macHexChars_cons_colon (rest : List Char) :
    macHexChars (':' :: rest) = macHexChars rest := by
  simp [macHexChars]

theorem macHexChars_cons_hex {c : Char} (h : c ≠ ':') (rest : List Char) :
    macHexChars (c :: rest) = c :: macHexChars rest := by
  simp [macHexChars, h]

theorem hexDigitChar_upper {c : Char} {n : Nat} (h : hexNibble c = some n) :
    hexDigitChar n = upperHexChar c := by
  unfold hexNibble at h
  unfold hexDigitChar upperHexChar
  simp only [show Char.toNat '0' = 48 from rfl, show Char.toNat '9' = 57 from rfl,
    show Char.toNat 'A' = 65 from rfl, show Char.toNat 'F' = 70 from rfl,
    show Char.toNat 'a' = 97 from rfl, show Char.toNat 'f' = 102 from rfl] at h ⊢
  split at h
  · rename_i h1
    simp only [Option.some.injEq] at h
    subst h
    rw [if_pos (by omega), if_neg (by omega),
      show 48 + (c.toNat - 48) = c.toNat by omega, Char.ofNat_toNat]
  · split at h
    · rename_i h1 h2
      simp only [Option.some.injEq] at h
      subst h
      rw [if_neg (by omega), if_neg (by omega),
        show 65 + (c.toNat - 65 + 10) - 10 = c.toNat by omega, Char.ofNat_toNat]
    · split at h
      · rename_i h1 h2 h3
        simp only [Option.some.injEq] at h
        subst h
        rw [if_neg (by omega), if_pos (by omega)]
        congr 1
        omega
      · exact absurd h (by simp)

theorem byte_digits_isSome {b : Nat} (h : b < 256) :
    (hexNibble (hexDigitChar (b >>> 4))).isSome
      ∧ (hexNibble (hexDigitChar (b &&& 0xf))).isSome := by
  rw [hexNibble_hexDigitChar _ (shiftRight_lt_sixteen h),
    hexNibble_hexDigitChar _ (and_fifteen_lt_sixteen b)]
  exact ⟨rfl, rfl⟩

/-- Round trip, first direction: formatting then parsing a valid MAC
byte array reproduces it. -/
theorem parseMac_macString (m : List Nat) (hm : MacValid m) :
    parseMac (macString m) = .ok m := by
  obtain ⟨hlen, hbound⟩ := hm
  rcases m with _ | ⟨b0, _ | ⟨b1, _ | ⟨b2, _ | ⟨b3, _ | ⟨b4, _ | ⟨b5, _ | ⟨b6, tl⟩⟩⟩⟩⟩⟩⟩ <;>
    simp only [List.length_nil, List.length_cons] at hlen <;> try omega
  have hb0 : b0 < 256 := hbound _ (by simp)
  have hb1 : b1 < 256 := hbound _ (by simp)
  have hb2 : b2 < 256 := hbound _ (by simp)
  have hb3 : b3 < 256 := hbound _ (by simp)
  have hb4 : b4 < 256 := hbound _ (by simp)
  have hb5 : b5 < 256 := hbound _ (by simp)
  have e1 : macHexChars (macString [b0, b1, b2, b3, b4, b5]).data =
      [hexDigitChar (b5 >>> 4), hexDigitChar (b5 &&& 0xf),
       hexDigitChar (b4 >>> 4), hexDigitChar (b4 &&& 0xf),
       hexDigitChar (b3 >>> 4), hexDigitChar (b3 &&& 0xf),
       hexDigitChar (b2 >>> 4), hexDigitChar (b2 &&& 0xf),
       hexDigitChar (b1 >>> 4), hexDigitChar (b1 &&& 0xf),
       hexDigitChar (b0 >>> 4), hexDigitChar (b0 &&& 0xf)] := by
    show macHexChars
      [hexDigitChar (b5 >>> 4), hexDigitChar (b5 &&& 0xf), ':',
       hexDigitChar (b4 >>> 4), hexDigitChar (b4 &&& 0xf), ':',
       hexDigitChar (b3 >>> 4), hexDigitChar (b3 &&& 0xf), ':',
       hexDigitChar (b2 >>> 4), hexDigitChar (b2 &&& 0xf), ':',
       hexDigitChar (b1 >>> 4), hexDigitChar (b1 &&& 0xf), ':',
       hexDigitChar (b0 >>> 4), hexDigitChar (b0 &&& 0xf)] = _
    rw [macHexChars_cons_hex (hexDigitChar_ne_colon (shiftRight_lt_sixteen hb5)),
      macHexChars_cons_hex (hexDigitChar_ne_colon (and_fifteen_lt_sixteen b5)),
      macHexChars_cons_colon,
      macHexChars_cons_hex (hexDigitChar_ne_colon (shiftRight_lt_sixteen hb4)),
      macHexChars_cons_hex (hexDigitChar_ne_colon (and_fifteen_lt_sixteen b4)),
      macHexChars_cons_colon,
      macHexChars_cons_hex (hexDigitChar_ne_colon (shiftRight_lt_sixteen hb3)),
      macHexChars_cons_hex (hexDigitChar_ne_colon (and_fifteen_lt_sixteen b3)),
      macHexChars_cons_colon,
      macHexChars_cons_hex (hexDigitChar_ne_colon (shiftRight_lt_sixteen hb2)),
      macHexChars_cons_hex (hexDigitChar_ne_colon (and_fifteen_lt_sixteen b2)),
      macHexChars_cons_colon,
      macHexChars_cons_hex (hexDigitChar_ne_colon (shiftRight_lt_sixteen hb1)),
      macHexChars_cons_hex (hexDigitChar_ne_colon (and_fifteen_lt_sixteen b1)),
      macHexChars_cons_colon,
      macHexChars_cons_hex (hexDigitChar_ne_colon (shiftRight_lt_sixteen hb0)),
      macHexChars_cons_hex (hexDigitChar_ne_colon (and_fifteen_lt_sixteen b0))]
    rfl
  obtain ⟨hs0h, hs0l⟩ := byte_digits_isSome hb0
  obtain ⟨hs1h, hs1l⟩ := byte_digits_isSome hb1
  obtain ⟨hs2h, hs2l⟩ := byte_digits_isSome hb2
  obtain ⟨hs3h, hs3l⟩ := byte_digits_isSome hb3
  obtain ⟨hs4h, hs4l⟩ := byte_digits_isSome hb4
  obtain ⟨hs5h, hs5l⟩ := byte_digits_isSome hb5
  rw [parseMac_eq, e1, if_pos ?_]
  · have e2 : List.filterMap hexNibble
        [hexDigitChar (b5 >>> 4), hexDigitChar (b5 &&& 0xf),
         hexDigitChar (b4 >>> 4), hexDigitChar (b4 &&& 0xf),
         hexDigitChar (b3 >>> 4), hexDigitChar (b3 &&& 0xf),
         hexDigitChar (b2 >>> 4), hexDigitChar (b2 &&& 0xf),
         hexDigitChar (b1 >>> 4), hexDigitChar (b1 &&& 0xf),
         hexDigitChar (b0 >>> 4), hexDigitChar (b0 &&& 0xf)] =
        [b5 >>> 4, b5 &&& 0xf, b4 >>> 4, b4 &&& 0xf, b3 >>> 4, b3 &&& 0xf,
         b2 >>> 4, b2 &&& 0xf, b1 >>> 4, b1 &&& 0xf, b0 >>> 4, b0 &&& 0xf] := by
      simp only [List.filterMap_cons, List.filterMap_nil,
        hexNibble_hexDigitChar _ (shiftRight_lt_sixteen hb5),
        hexNibble_hexDigitChar _ (and_fifteen_lt_sixteen b5),
        hexNibble_hexDigitChar _ (shiftRight_lt_sixteen hb4),
        hexNibble_hexDigitChar _ (and_fifteen_lt_sixteen b4),
        hexNibble_hexDigitChar _ (shiftRight_lt_sixteen hb3),
        hexNibble_hexDigitChar _ (and_fifteen_lt_sixteen b3),
        hexNibble_hexDigitChar _ (shiftRight_lt_sixteen hb2),
        hexNibble_hexDigitChar _ (and_fifteen_lt_sixteen b2),
        hexNibble_hexDigitChar _ (shiftRight_lt_sixteen hb1),
        hexNibble_hexDigitChar _ (and_fifteen_lt_sixteen b1),
        hexNibble_hexDigitChar _ (shiftRight_lt_sixteen hb0),
        hexNibble_hexDigitChar _ (and_fifteen_lt_sixteen b0)]
    rw [e2]
    have e3 : writeDigits (List.replicate 6 0)
        [b5 >>> 4, b5 &&& 0xf, b4 >>> 4, b4 &&& 0xf, b3 >>> 4, b3 &&& 0xf,
         b2 >>> 4, b2 &&& 0xf, b1 >>> 4, b1 &&& 0xf, b0 >>> 4, b0 &&& 0xf] 11 =
        [(0 ||| ((b0 >>> 4) <<< 4)) ||| (b0 &&& 0xf),
         (0 ||| ((b1 >>> 4) <<< 4)) ||| (b1 &&& 0xf),
         (0 ||| ((b2 >>> 4) <<< 4)) ||| (b2 &&& 0xf),
         (0 ||| ((b3 >>> 4) <<< 4)) ||| (b3 &&& 0xf),
         (0 ||| ((b4 >>> 4) <<< 4)) ||| (b4 &&& 0xf),
         (0 ||| ((b5 >>> 4) <<< 4)) ||| (b5 &&& 0xf)] := rfl
    rw [e3, nibble_rejoin b0 hb0, nibble_rejoin b1 hb1, nibble_rejoin b2 hb2,
      nibble_rejoin b3 hb3, nibble_rejoin b4 hb4, nibble_rejoin b5 hb5]
  · refine ⟨?_, rfl⟩
    intro c hc
    simp only [List.mem_cons, List.not_mem_nil, or_false] at hc
    rcases hc with rfl | rfl | rfl | rfl | rfl | rfl | rfl | rfl | rfl | rfl | rfl | rfl <;>
      assumption

/-- Round trip, second direction: formatting the result of a successful
parse yields the canonical upper-hex colon-separated form of the input. -/
theorem macString_canonical (s : String) (m : List Nat)
    (h : parseMac s = .ok m) : macString m = canonicalMacForm s := by
  rw [parseMac_eq] at h
  by_cases hcond : (∀ c ∈ macHexChars s.data, (hexNibble c).isSome)
      ∧ (macHexChars s.data).length = 12
  case neg => rw [if_neg hcond] at h; exact absurd h (by simp)
  rw [if_pos hcond] at h
  obtain ⟨hall, hlen⟩ := hcond
  have rhs_def : canonicalMacForm s
      = ⟨groupColons ((macHexChars s.data).map upperHexChar)⟩ := rfl
  generalize e : macHexChars s.data = L at hall hlen h rhs_def
  rcases L with _ | ⟨d0, L⟩
  · simp only [List.length_nil] at hlen; omega
  rcases L with _ | ⟨d1, L⟩
  · simp only [List.length_cons, List.length_nil] at hlen; omega
  rcases L with _ | ⟨d2, L⟩
  · simp only [List.length_cons, List.length_nil] at hlen; omega
  rcases L with _ | ⟨d3, L⟩
  · simp only [List.length_cons, List.length_nil] at hlen; omega
  rcases L with _ | ⟨d4, L⟩
  · simp only [List.length_cons, List.length_nil] at hlen; omega
  rcases L with _ | ⟨d5, L⟩
  · simp only [List.length_cons, List.length_nil] at hlen; omega
  rcases L with _ | ⟨d6, L⟩
  · simp only [List.length_cons, List.length_nil] at hlen; omega
  rcases L with _ | ⟨d7, L⟩
  · simp only [List.length_cons, List.length_nil] at hlen; omega
  rcases L with _ | ⟨d8, L⟩
  · simp only [List.length_cons, List.length_nil] at hlen; omega
  rcases L with _ | ⟨d9, L⟩
  · simp only [List.length_cons, List.length_nil] at hlen; omega
  rcases L with _ | ⟨d10, L⟩
  · simp only [List.length_cons, List.length_nil] at hlen; omega
  rcases L with _ | ⟨d11, L⟩
  · simp only [List.length_cons, List.length_nil] at hlen; omega
  rcases L with _ | ⟨d12, L⟩
  swap
  · simp only [List.length_cons] at hlen; omega
  obtain ⟨v0, hv0⟩ := Option.isSome_iff_exists.mp (hall d0 (by simp))
  obtain ⟨v1, hv1⟩ := Option.isSome_iff_exists.mp (hall d1 (by simp))
  obtain ⟨v2, hv2⟩ := Option.isSome_iff_exists.mp (hall d2 (by simp))
  obtain ⟨v3, hv3⟩ := Option.isSome_iff_exists.mp (hall d3 (by simp))
  obtain ⟨v4, hv4⟩ := Option.isSome_iff_exists.mp (hall d4 (by simp))
  obtain ⟨v5, hv5⟩ := Option.isSome_iff_exists.mp (hall d5 (by simp))
  obtain ⟨v6, hv6⟩ := Option.isSome_iff_exists.mp (hall d6 (by simp))
  obtain ⟨v7, hv7⟩ := Option.isSome_iff_exists.mp (hall d7 (by simp))
  obtain ⟨v8, hv8⟩ := Option.isSome_iff_exists.mp (hall d8 (by simp))
  obtain ⟨v9, hv9⟩ := Option.isSome_iff_exists.mp (hall d9 (by simp))
  obtain ⟨v10, hv10⟩ := Option.isSome_iff_exists.mp (hall d10 (by simp))
  obtain ⟨v11, hv11⟩ := Option.isSome_iff_exists.mp (hall d11 (by simp))
  have hw0 := hexNibble_lt hv0
  have hw1 := hexNibble_lt hv1
  have hw2 := hexNibble_lt hv2
  have hw3 := hexNibble_lt hv3
  have hw4 := hexNibble_lt hv4
  have hw5 := hexNibble_lt hv5
  have hw6 := hexNibble_lt hv6
  have hw7 := hexNibble_lt hv7
  have hw8 := hexNibble_lt hv8
  have hw9 := hexNibble_lt hv9
  have hw10 := hexNibble_lt hv10
  have hw11 := hexNibble_lt hv11
  simp only [List.filterMap_cons, List.filterMap_nil, hv0, hv1, hv2, hv3, hv4,
    hv5, hv6, hv7, hv8, hv9, hv10, hv11] at h
  have e3 : writeDigits (List.replicate 6 0)
      [v0, v1, v2, v3, v4, v5, v6, v7, v8, v9, v10, v11] 11 =
      [(0 ||| (v10 <<< 4)) ||| v11, (0 ||| (v8 <<< 4)) ||| v9,
       (0 ||| (v6 <<< 4)) ||| v7, (0 ||| (v4 <<< 4)) ||| v5,
       (0 ||| (v2 <<< 4)) ||| v3, (0 ||| (v0 <<< 4)) ||| v1] := rfl
  rw [e3] at h
  simp only [Except.ok.injEq] at h
  subst h
  have lhs_eq : macString
      [(0 ||| (v10 <<< 4)) ||| v11, (0 ||| (v8 <<< 4)) ||| v9,
       (0 ||| (v6 <<< 4)) ||| v7, (0 ||| (v4 <<< 4)) ||| v5,
       (0 ||| (v2 <<< 4)) ||| v3, (0 ||| (v0 <<< 4)) ||| v1] =
      ⟨[hexDigitChar v0, hexDigitChar v1, ':',
        hexDigitChar v2, hexDigitChar v3, ':',
        hexDigitChar v4, hexDigitChar v5, ':',
        hexDigitChar v6, hexDigitChar v7, ':',
        hexDigitChar v8, hexDigitChar v9, ':',
        hexDigitChar v10, hexDigitChar v11]⟩ := by
    show (⟨[hexDigitChar (((0 ||| (v0 <<< 4)) ||| v1) >>> 4),
        hexDigitChar (((0 ||| (v0 <<< 4)) ||| v1) &&& 0xf), ':',
        hexDigitChar (((0 ||| (v2 <<< 4)) ||| v3) >>> 4),
        hexDigitChar (((0 ||| (v2 <<< 4)) ||| v3) &&& 0xf), ':',
        hexDigitChar (((0 ||| (v4 <<< 4)) ||| v5) >>> 4),
        hexDigitChar (((0 ||| (v4 <<< 4)) ||| v5) &&& 0xf), ':',
        hexDigitChar (((0 ||| (v6 <<< 4)) ||| v7) >>> 4),
        hexDigitChar (((0 ||| (v6 <<< 4)) ||| v7) &&& 0xf), ':',
        hexDigitChar (((0 ||| (v8 <<< 4)) ||| v9) >>> 4),
        hexDigitChar (((0 ||| (v8 <<< 4)) ||| v9) &&& 0xf), ':',
        hexDigitChar (((0 ||| (v10 <<< 4)) ||| v11) >>> 4),
        hexDigitChar (((0 ||| (v10 <<< 4)) ||| v11) &&& 0xf)]⟩ : String) = _
    rw [nibble_split_high v0 hw0 v1 hw1, nibble_split_low v0 hw0 v1 hw1,
      nibble_split_high v2 hw2 v3 hw3, nibble_split_low v2 hw2 v3 hw3,
      nibble_split_high v4 hw4 v5 hw5, nibble_split_low v4 hw4 v5 hw5,
      nibble_split_high v6 hw6 v7 hw7, nibble_split_low v6 hw6 v7 hw7,
      nibble_split_high v8 hw8 v9 hw9, nibble_split_low v8 hw8 v9 hw9,
      nibble_split_high v10 hw10 v11 hw11, nibble_split_low v10 hw10 v11 hw11]
  rw [lhs_eq, rhs_def]
  show (⟨[hexDigitChar v0, hexDigitChar v1, ':', hexDigitChar v2,
      hexDigitChar v3, ':', hexDigitChar v4, hexDigitChar v5, ':',
      hexDigitChar v6, hexDigitChar v7, ':', hexDigitChar v8,
      hexDigitChar v9, ':', hexDigitChar v10, hexDigitChar v11]⟩ : String) =
    ⟨[upperHexChar d0, upperHexChar d1, ':', upperHexChar d2,
      upperHexChar d3, ':', upperHexChar d4, upperHexChar d5, ':',
      upperHexChar d6, upperHexChar d7, ':', upperHexChar d8,
      upperHexChar d9, ':', upperHexChar d10, upperHexChar d11]⟩
  rw [hexDigitChar_upper hv0, hexDigitChar_upper hv1, hexDigitChar_upper hv2,
    hexDigitChar_upper hv3, hexDigitChar_upper hv4, hexDigitChar_upper hv5,
    hexDigitChar_upper hv6, hexDigitChar_upper hv7, hexDigitChar_upper hv8,
    hexDigitChar_upper hv9, hexDigitChar_upper hv10, hexDigitChar_upper hv11]

theorem goodMacInput_of_textForm {s : String} (h : isMacTextForm s = true) :
    goodMacInput s := by
  unfold isMacTextForm at h
  split at h
  case h_2 => exact absurd h (by simp)
  case h_1 a1 a2 c1 b1 b2 c2 d1 d2 c3 e1 e2 c4 f1 f2 c5 g1 g2 heq =>
    simp only [List.all_cons, List.all_nil, Bool.and_eq_true, Bool.and_true,
      decide_eq_true_eq] at h
    obtain ⟨⟨hc1, hc2, hc3, hc4, hc5⟩, ha1, ha2, hb1, hb2, hd1, hd2, he1,
      he2, hf1, hf2, hg1, hg2⟩ := h
    subst hc1 hc2 hc3 hc4 hc5
    constructor
    · intro c hc
      rw [heq, macHexChars_cons_hex (upperHexDigit_ne_colon ha1),
        macHexChars_cons_hex (upperHexDigit_ne_colon ha2), macHexChars_cons_colon,
        macHexChars_cons_hex (upperHexDigit_ne_colon hb1),
        macHexChars_cons_hex (upperHexDigit_ne_colon hb2), macHexChars_cons_colon,
        macHexChars_cons_hex (upperHexDigit_ne_colon hd1),
        macHexChars_cons_hex (upperHexDigit_ne_colon hd2), macHexChars_cons_colon,
        macHexChars_cons_hex (upperHexDigit_ne_colon he1),
        macHexChars_cons_hex (upperHexDigit_ne_colon he2), macHexChars_cons_colon,
        macHexChars_cons_hex (upperHexDigit_ne_colon hf1),
        macHexChars_cons_hex (upperHexDigit_ne_colon hf2), macHexChars_cons_colon,
        macHexChars_cons_hex (upperHexDigit_ne_colon hg1),
        macHexChars_cons_hex (upperHexDigit_ne_colon hg2)] at hc
      have hnil : macHexChars ([] : List Char) = [] := rfl
      rw [hnil] at hc
      simp only [List.mem_cons, List.not_mem_nil, or_false] at hc
      rcases hc with rfl | rfl | rfl | rfl | rfl | rfl | rfl | rfl | rfl | rfl | rfl | rfl <;>
        first
        | exact hexNibble_isSome_of_upper ha1
        | exact hexNibble_isSome_of_upper ha2
        | exact hexNibble_isSome_of_upper hb1
        | exact hexNibble_isSome_of_upper hb2
        | exact hexNibble_isSome_of_upper hd1
        | exact hexNibble_isSome_of_upper hd2
        | exact hexNibble_isSome_of_upper he1
        | exact hexNibble_isSome_of_upper he2
        | exact hexNibble_isSome_of_upper hf1
        | exact hexNibble_isSome_of_upper hf2
        | exact hexNibble_isSome_of_upper hg1
        | exact hexNibble_isSome_of_upper hg2
    · rw [heq, macHexChars_cons_hex (upperHexDigit_ne_colon ha1),
        macHexChars_cons_hex (upperHexDigit_ne_colon ha2), macHexChars_cons_colon,
        macHexChars_cons_hex (upperHexDigit_ne_colon hb1),
        macHexChars_cons_hex (upperHexDigit_ne_colon hb2), macHexChars_cons_colon,
        macHexChars_cons_hex (upperHexDigit_ne_colon hd1),
        macHexChars_cons_hex (upperHexDigit_ne_colon hd2), macHexChars_cons_colon,
        macHexChars_cons_hex (upperHexDigit_ne_colon he1),
        macHexChars_cons_hex (upperHexDigit_ne_colon he2), macHexChars_cons_colon,
        macHexChars_cons_hex (upperHexDigit_ne_colon hf1),
        macHexChars_cons_hex (upperHexDigit_ne_colon hf2), macHexChars_cons_colon,
        macHexChars_cons_hex (upperHexDigit_ne_colon hg1),
        macHexChars_cons_hex (upperHexDigit_ne_colon hg2)]
      rfl

/-- C5: for every valid 6-byte MAC address, parsing its formatted string
returns the same bytes; and for every accepted string, formatting the
parse result gives the canonical colon-separated upper-hex rendering of
the same six bytes. -/
theorem C5_mac_roundtrip :
    (∀ m : List Nat, MacValid m → parseMac (macString m) = .ok m)
    ∧ (∀ (s : String) (m : List Nat), parseMac s = .ok m →
        macString m = canonicalMacForm s) :=
  ⟨parseMac_macString, macString_canonical⟩

/-- Witness for C5 at concrete inputs. -/
theorem C5_mac_roundtrip_witness :
    parseMac (macString [0, 1, 2, 0xAB, 0xCD, 0xEF]) = .ok [0, 1, 2, 0xAB, 0xCD, 0xEF]
    ∧ macString [17, 34, 51, 170, 187, 204] = canonicalMacForm "cc:bb:aa:33:22:11" :=
  ⟨C5_mac_roundtrip.1 [0, 1, 2, 0xAB, 0xCD, 0xEF] (by decide),
   C5_mac_roundtrip.2 "cc:bb:aa:33:22:11" [17, 34, 51, 170, 187, 204] (by rfl)⟩

/-- C6 counterexample: a string with no colons at all, hence not of the
form `XX:XX:XX:XX:XX:XX`, is nevertheless accepted by the parser. -/
theorem C6_parseMac_accepts_colonless :
    parseMac "112233AABBCC" = .ok [204, 187, 170, 51, 34, 17]
    ∧ isMacTextForm "112233AABBCC" = false :=
  ⟨rfl, rfl⟩

/-- C6 (amended): the parser ignores colons wherever they appear and
accepts lower-case hex; it succeeds exactly on strings whose non-colon
characters are exactly twelve hex digits, returns the dedicated
invalid-address error on every other string, and in particular accepts
every string of the canonical textual form. -/
theorem C6_parseMac_validity (s : String) :
    ((∃ m, parseMac s = .ok m) ↔ goodMacInput s)
    ∧ (¬ goodMacInput s → parseMac s = .error .invalidAddress)
    ∧ (isMacTextForm s = true → goodMacInput s) := by
  refine ⟨⟨?_, ?_⟩, ?_, ?_⟩
  · rintro ⟨m, hm⟩
    rw [parseMac_eq] at hm
    by_cases hg : goodMacInput s
    · exact hg
    · unfold goodMacInput at hg
      rw [if_neg hg] at hm
      exact absurd hm (by simp)
  · intro hg
    unfold goodMacInput at hg
    exact ⟨_, by rw [parseMac_eq, if_pos hg]⟩
  · intro hg
    unfold goodMacInput at hg
    rw [parseMac_eq, if_neg hg]
  · exact goodMacInput_of_textForm

/-- Witness for C6 at a concrete canonical-form input. -/
theorem C6_parseMac_validity_witness :
    goodMacInput "00:11:22:33:44:55" :=
  (C6_parseMac_validity "00:11:22:33:44:55").2.2 (by rfl)

/-! ## Data model (api/bluetooth/adapter.go, device definitions)

Snapshot structures.  The Go structs embed their `...EventData` part; the
embedding is modelled as an explicit `eventData` field. -/

/-- `AdapterEventData`: the dynamic adapter fields. -/
structure AdapterEventData where
  address : List Nat
  discoverable : Bool
  pairable : Bool
  powered : Bool
  discovering : Bool
  deriving DecidableEq, Repr

/-- `AdapterData`: static adapter fields plus the embedded event data. -/
structure AdapterData where
  name : String
  aliasName : String
  uniqueName : String
  uuids : List String
  eventData : AdapterEventData
  deriving DecidableEq, Repr

/-- `DeviceEventData`: the dynamic device fields. -/
structure DeviceEventData where
  address : List Nat
  associatedAdapter : List Nat
  paired : Bool
  connected : Bool
  trusted : Bool
  blocked : Bool
  bonded : Bool
  rssi : Int
  percentage : Int
  uuids : List String
  deriving DecidableEq, Repr

/-- `DeviceData`: static device fields plus the embedded event data. -/
structure DeviceData where
  name : String
  deviceClass : Nat
  devType : String
  aliasName : String
  legacyPairing : Bool
  eventData : DeviceEventData
  deriving DecidableEq, Repr

/-! ## Object store (api/helpers/sessionstore)

`xsync.MapOf` is modelled as an insertion-ordered association list with
load / store / delete operations. -/

/-- `MapOf.Load`. -/
def alistLoad {K V : Type} [DecidableEq K] (k : K) : List (K × V) → Option V
  | [] => none
  | (k2, v) :: rest => if k2 = k then some v else alistLoad k rest

/-- `MapOf.Store`: replace the binding if present, append otherwise. -/
def alistStore {K V : Type} [DecidableEq K] (k : K) (v : V) :
    List (K × V) → List (K × V)
  | [] => [(k, v)]
  | (k2, v2) :: rest =>
    if k2 = k then (k, v) :: rest else (k2, v2) :: alistStore k v rest

/-- `MapOf.Delete`. -/
def alistDelete {K V : Type} [DecidableEq K] (k : K) :
    List (K × V) → List (K × V)
  | [] => []
  | (k2, v2) :: rest =>
    if k2 = k then rest else (k2, v2) :: alistDelete k rest

/-- `SessionStore`: the two maps, adapters and devices, keyed by MAC. -/
structure SessionStore where
  adapters : List (List Nat × AdapterData)
  devices : List (List Nat × DeviceData)
  deriving DecidableEq, Repr

/-- `NewSessionStore`. -/
def SessionStore.new : SessionStore := ⟨[], []⟩

/-- `SessionStore.Adapters`: collect all stored adapters; an empty
collection is reported as the "no adapters found" error, not as an empty
list.  `ShimSession.Adapters` delegates to this directly. -/
def SessionStore.Adapters (s : SessionStore) : Except BtError (List AdapterData) :=
  let adapters := s.adapters.map (·.2)
  if adapters.length = 0 then .error .noAdaptersFound
  else .ok adapters

/-- `SessionStore.Adapter`. -/
def SessionStore.Adapter (s : SessionStore) (adapterAddress : List Nat) :
    Except BtError AdapterData :=
  match alistLoad adapterAddress s.adapters with
  | none => .error .adapterNotFound
  | some adapter => .ok adapter

/-- `SessionStore.AddAdapter`: keyed by `adapter.Address`. -/
def SessionStore.AddAdapter (s : SessionStore) (adapter : AdapterData) : SessionStore :=
  { s with adapters := alistStore adapter.eventData.address adapter s.adapters }

/-- `SessionStore.RemoveAdapter`. -/
def SessionStore.RemoveAdapter (s : SessionStore) (adapterAddress : List Nat) : SessionStore :=
  { s with adapters := alistDelete adapterAddress s.adapters }

/-- `SessionStore.UpdateAdapter`: load a copy of the entry, run the merge
function on it, and store the merged copy only when the merge succeeds.
The merge closure (which in Go mutates a stack copy and returns an
`error`) is modelled as a function into `Except`. -/
def SessionStore.UpdateAdapter (s : SessionStore) (adapterAddress : List Nat)
    (mergefn : AdapterData → Except BtError AdapterData) :
    Except BtError AdapterEventData × SessionStore :=
  match alistLoad adapterAddress s.adapters with
  | none => (.error .adapterNotFound, s)
  | some adapter =>
    match mergefn adapter with
    | .error e => (.error e, s)
    | .ok merged =>
      (.ok merged.eventData,
       { s with adapters := alistStore adapterAddress merged s.adapters })

/-- `SessionStore.Device`. -/
def SessionStore.Device (s : SessionStore) (deviceAddress : List Nat) :
    Except BtError DeviceData :=
  match alistLoad deviceAddress s.devices with
  | none => .error .deviceNotFound
  | some device => .ok device

/-- `SessionStore.AddDevice`: keyed by `device.Address`. -/
def SessionStore.AddDevice (s : SessionStore) (device : DeviceData) : SessionStore :=
  { s with devices := alistStore device.eventData.address device s.devices }

/-- `SessionStore.RemoveDevice`. -/
def SessionStore.RemoveDevice (s : SessionStore) (deviceAddress : List Nat) : SessionStore :=
  { s with devices := alistDelete deviceAddress s.devices }

/-- `SessionStore.UpdateDevice`, analogous to `UpdateAdapter`. -/
def SessionStore.UpdateDevice (s : SessionStore) (deviceAddress : List Nat)
    (mergefn : DeviceData → Except BtError DeviceData) :
    Except BtError DeviceEventData × SessionStore :=
  match alistLoad deviceAddress s.devices with
  | none => (.error .deviceNotFound, s)
  | some device =>
    match mergefn device with
    | .error e => (.error e, s)
    | .ok merged =>
      (.ok merged.eventData,
       { s with devices := alistStore deviceAddress merged s.devices })

theorem alistLoad_alistStore_self {K V : Type} [DecidableEq K] (k : K) (v : V)
    (m : List (K × V)) : alistLoad k (alistStore k v m) = some v := by
  induction m with
  | nil => simp [alistStore, alistLoad]
  | cons kv rest ih =>
    obtain ⟨k2, v2⟩ := kv
    by_cases hk : k2 = k
    · simp [alistStore, alistLoad, hk]
    · simp only [alistStore, alistLoad, if_neg hk]
      exact ih

/-- C2: update-with-merge on the store is atomic.  A missing entry
returns the not-found error with the store unchanged; a failing merge
returns the merge error with the store unchanged; a successful merge
stores the merged snapshot under the address and returns the event-data
projection of the post-merge snapshot. -/
theorem C2_store_update_atomicity (st : SessionStore) (addr : List Nat)
    (f : AdapterData → Except BtError AdapterData)
    (g : DeviceData → Except BtError DeviceData) :
    (alistLoad addr st.adapters = none →
      st.UpdateAdapter addr f = (.error .adapterNotFound, st))
    ∧ (∀ a e, alistLoad addr st.adapters = some a → f a = .error e →
      st.UpdateAdapter addr f = (.error e, st))
    ∧ (∀ a merged, alistLoad addr st.adapters = some a → f a = .ok merged →
      (st.UpdateAdapter addr f).1 = .ok merged.eventData
        ∧ alistLoad addr (st.UpdateAdapter addr f).2.adapters = some merged)
    ∧ (alistLoad addr st.devices = none →
      st.UpdateDevice addr g = (.error .deviceNotFound, st))
    ∧ (∀ d e, alistLoad addr st.devices = some d → g d = .error e →
      st.UpdateDevice addr g = (.error e, st))
    ∧ (∀ d merged, alistLoad addr st.devices = some d → g d = .ok merged →
      (st.UpdateDevice addr g).1 = .ok merged.eventData
        ∧ alistLoad addr (st.UpdateDevice addr g).2.devices = some merged) := by
  refine ⟨?_, ?_, ?_, ?_, ?_, ?_⟩
  · intro h
    simp [SessionStore.UpdateAdapter, h]
  · intro a e ha he
    simp [SessionStore.UpdateAdapter, ha, he]
  · intro a merged ha hm
    simp [SessionStore.UpdateAdapter, ha, hm, alistLoad_alistStore_self]
  · intro h
    simp [SessionStore.UpdateDevice, h]
  · intro d e hd he
    simp [SessionStore.UpdateDevice, hd, he]
  · intro d merged hd hm
    simp [SessionStore.UpdateDevice, hd, hm, alistLoad_alistStore_self]

/-- A sample adapter event-data value for concrete instantiations. -/
def sampleAdapterED : AdapterEventData :=
  ⟨[1, 2, 3, 4, 5, 6], false, false, true, false⟩

/-- A sample adapter snapshot. -/
def sampleAdapter : AdapterData := ⟨"host", "host", "hci0", [], sampleAdapterED⟩

/-- A sample device event-data value. -/
def sampleDeviceED : DeviceEventData :=
  ⟨[6, 5, 4, 3, 2, 1], [1, 2, 3, 4, 5, 6], true, false, false, false, true, -40, 50, []⟩

/-- A sample device snapshot. -/
def sampleDevice : DeviceData := ⟨"phone", 0, "Phone", "phone", false, sampleDeviceED⟩

/-- A sample store holding one adapter and one device. -/
def wStore : SessionStore :=
  ⟨[([1, 2, 3, 4, 5, 6], sampleAdapter)], [([6, 5, 4, 3, 2, 1], sampleDevice)]⟩

/-- A sample successful adapter merge. -/
def wMergeA : AdapterData → Except BtError AdapterData :=
  fun a => .ok { a with name := "merged" }

/-- The result of `wMergeA` on `sampleAdapter`. -/
def wMergedA : AdapterData := { sampleAdapter with name := "merged" }

/-- A sample failing device merge. -/
def wMergeD : DeviceData → Except BtError DeviceData :=
  fun _ => .error .sessionStop

/-- Witness for C2 at a concrete store, merge success and merge failure. -/
theorem C2_store_update_atomicity_witness :
    (wStore.UpdateAdapter [1, 2, 3, 4, 5, 6] wMergeA).1 = .ok wMergedA.eventData
      ∧ alistLoad [1, 2, 3, 4, 5, 6]
          (wStore.UpdateAdapter [1, 2, 3, 4, 5, 6] wMergeA).2.adapters = some wMergedA
      ∧ wStore.UpdateDevice [6, 5, 4, 3, 2, 1] wMergeD = (.error .sessionStop, wStore) :=
  ⟨((C2_store_update_atomicity wStore [1, 2, 3, 4, 5, 6] wMergeA wMergeD).2.2.1
      sampleAdapter wMergedA (by rfl) (by rfl)).1,
   ((C2_store_update_atomicity wStore [1, 2, 3, 4, 5, 6] wMergeA wMergeD).2.2.1
      sampleAdapter wMergedA (by rfl) (by rfl)).2,
   (C2_store_update_atomicity wStore [6, 5, 4, 3, 2, 1] wMergeA wMergeD).2.2.2.2.1
      sampleDevice .sessionStop (by rfl) (by rfl)⟩

/-- C10: with no adapters stored, `Adapters` returns an error rather
than an empty list; with at least one adapter stored it returns a list
containing every stored adapter. -/
theorem C10_adapters_error_on_empty (st : SessionStore) :
    (st.adapters = [] → st.Adapters = .error .noAdaptersFound)
    ∧ (st.adapters ≠ [] → ∃ l, st.Adapters = .ok l
        ∧ ∀ kv ∈ st.adapters, kv.2 ∈ l) := by
  constructor
  · intro h
    simp [SessionStore.Adapters, h]
  · intro h
    refine ⟨st.adapters.map (·.2), ?_, ?_⟩
    · simp only [SessionStore.Adapters, List.length_map]
      rw [if_neg (fun hlen => h (List.length_eq_zero.mp hlen))]
    · intro kv hkv
      exact List.mem_map_of_mem _ hkv

/-- Witness for C10 on the empty store and on a store with one adapter. -/
theorem C10_adapters_error_on_empty_witness :
    (SessionStore.new.Adapters = .error .noAdaptersFound)
    ∧ ∃ l, wStore.Adapters = .ok l ∧ ∀ kv ∈ wStore.adapters, kv.2 ∈ l :=
  ⟨(C10_adapters_error_on_empty SessionStore.new).1 rfl,
   (C10_adapters_error_on_empty wStore).2 (by simp [wStore])⟩

/-! ## Shim session lifecycle (shim/adapter.go)

The observable state of a `ShimSession` relevant to `Stop`/`reset`. -/

/-- The application features advertised by a provider
(api/appfeatures). -/
inductive Feature where
  | connection
  | pairing
  | sendFile
  | receiveFile
  | network
  | mediaPlayer
  deriving DecidableEq, Repr

/-- Observable `ShimSession` state: the `sessionClosed` atomic flag, the
socket connection, the cancellation flag of the listener context, the
feature set pointer and the session store. -/
structure ShimState where
  sessionClosed : Bool
  connOpen : Bool
  cancelled : Bool
  features : Option (List Feature)
  store : SessionStore
  deriving DecidableEq, Repr

/-- `ShimSession.cleanup`: cancel the listener context and close the
connection. -/
def ShimState.cleanup (s : ShimState) : ShimState :=
  { s with cancelled := true, connOpen := false }

/-- `ShimSession.reset`: clear the feature set, record the closed flag,
and either clean up (stopping) or reinitialise the session internals
(starting). -/
def ShimState.reset (s : ShimState) (isClosed : Bool) : ShimState :=
  let s := { s with features := none, sessionClosed := isClosed }
  if isClosed then s.cleanup
  else { s with cancelled := false, store := SessionStore.new }

/-- `ShimSession.Stop`: an already-closed session reports
`ErrSessionNotExist`; otherwise the session is reset to closed. -/
def ShimState.Stop (s : ShimState) : Except BtError Unit × ShimState :=
  if s.sessionClosed then (.error .sessionNotExist, s)
  else (.ok (), s.reset true)

/-- A concrete running session. -/
def runningSession : ShimState :=
  ⟨false, true, false, some [.connection, .pairing, .sendFile], wStore⟩

/-- C7 counterexample: after a first `Stop`, a further `Stop` does not
succeed; it returns the session-not-exist error, refuting the claim that
every further call succeeds. -/
theorem C7_second_stop_errors :
    (ShimState.Stop (ShimState.Stop runningSession).2).1
      = .error .sessionNotExist := rfl

/-- C7 (amended): the first `Stop` on a running session succeeds and
marks the session closed; every further `Stop` (including any call after
the connection-loss handler already invoked `Stop`) returns the
session-not-exist error and leaves the state exactly as it was, so the
state effect is idempotent but the result is an error, not success. -/
theorem C7_stop_effect (s : ShimState) :
    (s.sessionClosed = false →
      (s.Stop).1 = .ok () ∧ (s.Stop).2.sessionClosed = true)
    ∧ (s.sessionClosed = true → s.Stop = (.error .sessionNotExist, s)) := by
  constructor
  · intro h
    simp [ShimState.Stop, ShimState.reset, ShimState.cleanup, h]
  · intro h
    simp [ShimState.Stop, h]

/-- Witness for C7 on a concrete running session and its stopped
successor. -/
theorem C7_stop_effect_witness :
    ((runningSession.Stop).1 = .ok ()
      ∧ (runningSession.Stop).2.sessionClosed = true)
    ∧ (runningSession.Stop).2.Stop
        = (.error .sessionNotExist, (runningSession.Stop).2) :=
  ⟨(C7_stop_effect runningSession).1 rfl,
   (C7_stop_effect (runningSession.Stop).2).2 rfl⟩

/-! ## Command execution and timeouts
(shim/internal/commands/options.go `ExecuteWith`, shim/adapter.go
`executor` and `listen`)

The life of a single request is modelled as a small state machine.  A
caller registers a request id with a fresh buffered reply channel
(capacity one) in the request map and then waits in a `select` on the
channel and a timer.  The listener, on reading a response line with that
request id, removes the channel from the map (`LoadAndDelete`) and sends
the response into it.  On timeout the waiter simply returns; nothing
deregisters the id, so a later response is still sent into the buffered
channel, which no caller ever reads. -/

/-- State of one in-flight request: whether the id is still registered
in `requestMap`, whether `ExecuteWith` is still waiting, the buffered
(unread) channel content, whether the channel was closed, and the value
the caller returned with. -/
structure RequestState where
  registered : Bool
  waiterActive : Bool
  chanValue : Option Nat
  chanClosed : Bool
  callerResult : Option (Except BtError Nat)
  deriving Repr

/-- The state right after `executor` stored the fresh id and channel and
`ExecuteWith` entered its `select`. -/
def initRequest : RequestState :=
  ⟨true, true, none, false, none⟩

/-- Events affecting one request: the `time.After` timer firing, or the
listener reading a response line carrying the request id. -/
inductive ReqEvent where
  | timeout
  | response (r : Nat)

/-- One step of the request machine, mirroring the `select` in
`ExecuteWith` and the `LoadAndDelete` + `sendData` path in `listen`. -/
def reqStep (st : RequestState) : ReqEvent → RequestState
  | .timeout =>
    if st.waiterActive then
      { st with
          waiterActive := false
          callerResult := some (.error .methodTimeout) }
    else st
  | .response r =>
    if st.registered then
      if st.waiterActive then
        { st with
            registered := false
            chanClosed := true
            waiterActive := false
            callerResult := some (.ok r) }
      else
        { st with
            registered := false
            chanClosed := true
            chanValue := some r }
    else st

/-- Run the request machine over a trace of events. -/
def reqRun (st : RequestState) : List ReqEvent → RequestState
  | [] => st
  | e :: rest => reqRun (reqStep st e) rest

/-- `CommandReplyTimeout = 30 * time.Second`, in nanoseconds. -/
def commandReplyTimeoutNs : Nat := 30 * 1000000000

/-- The timeout selection at the top of `ExecuteWith`: the variadic
`timeoutSeconds` overrides the default when present. -/
def executeTimeoutNs (timeoutSeconds : Option Nat) : Nat :=
  match timeoutSeconds with
  | none => commandReplyTimeoutNs
  | some t => t * 1000000000

/-- The request ids allocated by `k` successive `executor` calls when
the counter starts at `n`: each call increments then reads the counter. -/
def allocIds (n k : Nat) : List Nat :=
  (List.range k).map (fun i => n + i + 1)

theorem reqStep_fixed (st : RequestState) (e : ReqEvent)
    (hw : st.waiterActive = false) :
    (reqStep st e).callerResult = st.callerResult
      ∧ (reqStep st e).waiterActive = false := by
  cases e with
  | timeout => simp [reqStep, hw]
  | response r =>
    by_cases hr : st.registered
    · simp [reqStep, hw, hr]
    · simp [reqStep, hw, hr]

theorem reqRun_fixed (events : List ReqEvent) :
    ∀ st : RequestState, st.waiterActive = false →
      (reqRun st events).callerResult = st.callerResult
        ∧ (reqRun st events).waiterActive = false := by
  induction events with
  | nil => intro st hw; exact ⟨rfl, hw⟩
  | cons e rest ih =>
    intro st hw
    have h := reqStep_fixed st e hw
    have h2 := ih (reqStep st e) h.2
    exact ⟨by rw [show reqRun st (e :: rest) = reqRun (reqStep st e) rest from rfl,
        h2.1, h.1], h2.2⟩

/-- The request state after the timer fired with no response yet: the id
is still registered (nothing removes it on timeout), the caller returned
with the method-timeout error. -/
def timedOutRequest : RequestState :=
  ⟨true, false, none, false, some (.error .methodTimeout)⟩

theorem reqRun_timeouts_id (events : List ReqEvent) :
    ∀ st : RequestState, st.waiterActive = false →
      (∀ e ∈ events, ∀ r, e ≠ ReqEvent.response r) →
      reqRun st events = st := by
  induction events with
  | nil => intro st _ _; rfl
  | cons e rest ih =>
    intro st hw h
    cases e with
    | response r => exact absurd rfl (h _ (by simp) r)
    | timeout =>
      have hstep : reqStep st .timeout = st := by simp [reqStep, hw]
      rw [show reqRun st (ReqEvent.timeout :: rest)
        = reqRun (reqStep st .timeout) rest from rfl, hstep]
      exact ih st hw (fun y hy => h y (by simp [hy]))

theorem reqRun_no_response (pre : List ReqEvent)
    (h : ∀ e ∈ pre, ∀ r, e ≠ ReqEvent.response r) :
    reqRun initRequest pre = initRequest
      ∨ reqRun initRequest pre = timedOutRequest := by
  induction pre with
  | nil => exact Or.inl rfl
  | cons e rest ih =>
    cases e with
    | response r => exact absurd rfl (h _ (by simp) r)
    | timeout =>
      have hrest : ∀ x ∈ rest, ∀ r, x ≠ ReqEvent.response r :=
        fun x hx => h x (by simp [hx])
      rw [show reqRun initRequest (ReqEvent.timeout :: rest)
        = reqRun (reqStep initRequest .timeout) rest from rfl,
        show reqStep initRequest .timeout = timedOutRequest from rfl]
      exact Or.inr (reqRun_timeouts_id rest timedOutRequest rfl hrest)

theorem reqRun_append (l1 l2 : List ReqEvent) :
    ∀ st : RequestState, reqRun st (l1 ++ l2) = reqRun (reqRun st l1) l2 := by
  induction l1 with
  | nil => intro st; rfl
  | cons e rest ih => intro st; exact ih (reqStep st e)

/-- C1: with no explicit per-call timeout the executor waits the default
30 seconds (`CommandReplyTimeout`); if the timer fires before any
response carrying the request id is read from the socket, the caller
returns the method-timeout error; a response read after the timeout is
sent into the still-registered buffered reply channel that no caller
reads, so the caller result never changes; and request ids come from a
strictly increasing counter, so no two callers ever share an id. -/
theorem C1_execute_timeout (pre post : List ReqEvent)
    (hpre : ∀ e ∈ pre, ∀ r, e ≠ ReqEvent.response r) :
    executeTimeoutNs none = 30 * 1000000000
    ∧ (reqRun initRequest (pre ++ ReqEvent.timeout :: post)).callerResult
        = some (.error .methodTimeout)
    ∧ (reqRun initRequest (pre ++ ReqEvent.timeout :: post)).waiterActive = false
    ∧ (∀ n k, (allocIds n k).Nodup) := by
  have hrw : reqRun initRequest (pre ++ ReqEvent.timeout :: post)
      = reqRun timedOutRequest post := by
    rw [reqRun_append]
    rcases reqRun_no_response pre hpre with h | h <;> rw [h]
    · rfl
    · show reqRun (reqStep timedOutRequest .timeout) post = _
      rw [show reqStep timedOutRequest .timeout = timedOutRequest from rfl]
  have hfix := reqRun_fixed post timedOutRequest rfl
  refine ⟨rfl, by rw [hrw]; exact hfix.1, by rw [hrw]; exact hfix.2, ?_⟩
  intro n k
  exact List.Nodup.map (fun a b hab => by omega) (List.nodup_range k)

/-- Witness for C1: a response arriving only after the timeout leaves the
caller with the method-timeout error. -/
theorem C1_execute_timeout_witness :
    (reqRun initRequest ([] ++ ReqEvent.timeout :: [ReqEvent.response 7])).callerResult
      = some (.error .methodTimeout) :=
  (C1_execute_timeout [] [ReqEvent.response 7] (by simp)).2.1
/-! ## Lexical path helpers (Go `path/filepath`, unix rules)

`filepath.Dir`, `filepath.Base` and `filepath.Join` are library
functions used by the path converter and by `savefile`.  They are
modelled on components following the documented lexical cleaning rules:
drop empty and `.` components, resolve `..` against the component stack
(discarding it at the root of a rooted path, keeping it in front of a
relative path), and render an empty relative result as `.`. -/

/-- The component stack of lexical cleaning. -/
def cleanStack (rooted : Bool) : List String → List String → List String
  | stack, [] => stack.reverse
  | stack, c :: rest =>
    if c = "" ∨ c = "." then cleanStack rooted stack rest
    else if c = ".." then
      match stack with
      | [] =>
        if rooted then cleanStack rooted [] rest
        else cleanStack rooted [".."] rest
      | top :: stack2 =>
        if top = ".." then cleanStack rooted (".." :: top :: stack2) rest
        else cleanStack rooted stack2 rest
    else cleanStack rooted (c :: stack) rest

/-- Whether a path is rooted (begins with a separator). -/
def pathRooted (path : String) : Bool :=
  match path.data with
  | '/' :: _ => true
  | _ => false

/-- Split a character list into slash-separated components; `acc` holds
the characters of the current component in reverse. -/
def splitComps (acc : List Char) : List Char → List String
  | [] => [String.mk acc.reverse]
  | c :: rest =>
    if c = '/' then String.mk acc.reverse :: splitComps [] rest
    else splitComps (c :: acc) rest

/-- Join components with slash separators. -/
def joinComps : List String → List Char
  | [] => []
  | [s] => s.data
  | s :: rest => s.data ++ '/' :: joinComps rest

/-- `filepath.Clean` for slash-separated paths. -/
def goClean (path : String) : String :=
  if path = "" then "."
  else
    let rooted := pathRooted path
    let js := joinComps (cleanStack rooted [] (splitComps [] path.data))
    if rooted then String.mk ('/' :: js)
    else if js = [] then "." else String.mk js

/-- `filepath.Dir`: everything up to and including the final separator,
cleaned. -/
def goDir (path : String) : String :=
  goClean (String.mk ((path.data.reverse.dropWhile (· ≠ '/')).reverse))

/-- `filepath.Base`: the last element of the path after removing
trailing separators; `.` for the empty path, `/` for all-separator
paths. -/
def goBase (path : String) : String :=
  if path = "" then "."
  else
    let cs := (path.data.reverse.dropWhile (· = '/')).reverse
    if cs = [] then "/"
    else String.mk (cs.reverse.takeWhile (· ≠ '/')).reverse

/-- `filepath.Join` on two elements: empty elements are skipped, the
rest joined with a separator and cleaned. -/
def goJoin (a b : String) : String :=
  if a = "" then (if b = "" then "" else goClean b)
  else if b = "" then goClean a
  else goClean (a ++ "/" ++ b)

/-! ## DBus path converter
(linux/internal/dbushelper/pathconverter.go) -/

/-- The kinds of Bluez DBus paths tracked by the converter. -/
inductive DbusPathType where
  | device
  | adapter
  | obexSession
  | obexTransfer
  deriving DecidableEq, Repr

/-- `dbusPath`: a path together with its kind, the key of the converter
map. -/
structure DbusPathKey where
  pathType : DbusPathType
  path : String
  deriving DecidableEq, Repr

/-- The converter map from typed paths to Bluetooth addresses. -/
def PathConverter : Type := List (DbusPathKey × List Nat)

/-- `AddDbusPath`. -/
def addDbusPath (c : PathConverter) (t : DbusPathType) (p : String)
    (addr : List Nat) : PathConverter :=
  alistStore ⟨t, p⟩ addr c

/-- `RemoveDbusPath`. -/
def removeDbusPath (c : PathConverter) (t : DbusPathType) (p : String) :
    PathConverter :=
  alistDelete ⟨t, p⟩ c

/-- `Address`. -/
def converterAddress (c : PathConverter) (t : DbusPathType) (p : String) :
    Option (List Nat) :=
  alistLoad ⟨t, p⟩ c

/-- `RemoveAdapterDbusPath`: a no-op when the adapter path is not
registered; otherwise removes the adapter mapping and then ranges over
the map, removing every entry whose type is `Device` unless
`filepath.Dir(p.path) == p.path` - note that the comparison is between
the directory of each ranged path and that same path itself. -/
def removeAdapterDbusPath (c : PathConverter) (path : String) : PathConverter :=
  match alistLoad (⟨.adapter, path⟩ : DbusPathKey) c with
  | none => c
  | some _ =>
    let c2 := removeDbusPath c .adapter path
    c2.filter fun e =>
      decide ¬(e.1.pathType = DbusPathType.device ∧ goDir e.1.path ≠ e.1.path)

/-- A concrete converter: two adapters, a device registered under the
second adapter, an OBEX session not under any adapter, and a
hypothetical OBEX transfer path lying under the first adapter. -/
def cvt0 : PathConverter :=
  [(⟨.adapter, "/org/bluez/hci0"⟩, [1, 1, 1, 1, 1, 1]),
   (⟨.adapter, "/org/bluez/hci1"⟩, [2, 2, 2, 2, 2, 2]),
   (⟨.device, "/org/bluez/hci1/dev_AA_BB_CC_DD_EE_FF"⟩, [3, 3, 3, 3, 3, 3]),
   (⟨.obexSession, "/org/bluez/obex/client/session0"⟩, [3, 3, 3, 3, 3, 3]),
   (⟨.obexTransfer, "/org/bluez/hci0/transfer1"⟩, [4, 4, 4, 4, 4, 4])]

/-- C3: removing the registered adapter path `/org/bluez/hci0` also
removes the device mapping under the *other* adapter `/org/bluez/hci1`
(not a descendant of the removed path), while the OBEX transfer mapping
that *is* a descendant of the removed path survives: the
descendant-scoped cascade claimed by the spec (and by the Go doc comment
"removes mappings of a Bluez DBus adapter path and its associated
devices") does not hold; the ranged condition compares each path with
its own directory instead of with the removed adapter path. -/
theorem C3_cascade_removes_unrelated_device :
    removeAdapterDbusPath cvt0 "/org/bluez/hci0" =
      [(⟨.adapter, "/org/bluez/hci1"⟩, [2, 2, 2, 2, 2, 2]),
       (⟨.obexSession, "/org/bluez/obex/client/session0"⟩, [3, 3, 3, 3, 3, 3]),
       (⟨.obexTransfer, "/org/bluez/hci0/transfer1"⟩, [4, 4, 4, 4, 4, 4])]
    ∧ converterAddress (removeAdapterDbusPath cvt0 "/org/bluez/hci0")
        .device "/org/bluez/hci1/dev_AA_BB_CC_DD_EE_FF" = none
    ∧ converterAddress (removeAdapterDbusPath cvt0 "/org/bluez/hci0")
        .obexTransfer "/org/bluez/hci0/transfer1" = some [4, 4, 4, 4, 4, 4] := by
  refine ⟨?_, ?_, ?_⟩ <;> rfl

/-! ## OBEX Object Push data (api/bluetooth/obex.go) -/

/-- `ObjectPushStatus`. -/
inductive ObjectPushStatus where
  | queued
  | active
  | suspended
  | complete
  | error
  deriving DecidableEq, Repr

/-- `ObjectPushEventData`: the dynamic transfer fields. -/
structure ObjectPushEventData where
  address : List Nat
  status : ObjectPushStatus
  size : Nat
  transferred : Nat
  transferId : String
  sessionId : String
  deriving DecidableEq, Repr

/-- `ObjectPushData`: static transfer fields plus the embedded event
data.  `mimeType` models the Go field `Type`. -/
structure ObjectPushData where
  name : String
  mimeType : String
  filename : String
  receiving : Bool
  eventData : ObjectPushEventData
  deriving DecidableEq, Repr

/-! ## Transfer operations
(ui/app/views/progressview.go and shim/obex.go) -/

/-- `MacAddress.IsNil`: the number of zero bytes equals six. -/
def macIsNil (m : List Nat) : Bool :=
  (m.filter (fun b => decide (b = 0))).length = 6

/-- The fields of the progress indicator consulted by the transfer
actions: whether the transfer is inbound, and the device address. -/
structure ProgressIndicator where
  recv : Bool
  deviceAddress : List Nat
  deriving DecidableEq, Repr

/-- A command issued to the provider through the ObjectPush interface. -/
inductive OppCommand where
  | suspendTransfer (addr : List Nat)
  | resumeTransfer (addr : List Nat)
  | cancelTransfer (addr : List Nat)
  deriving DecidableEq, Repr

/-- The observable outcome of a progress-view key action: nothing (no
selection), an informational status-bar message with no command issued,
or a command forwarded to the session. -/
inductive UIAction where
  | nothing
  | info (msg : String)
  | sendCommand (c : OppCommand)
  deriving DecidableEq, Repr

/-- `progressView.suspendTransfer`: no-op without a selection; an info
message (and no command) when the transfer is being received; otherwise
the suspend command is forwarded. -/
def suspendTransferAction (props : ObjectPushData)
    (progress : ProgressIndicator) : UIAction :=
  if macIsNil props.eventData.address then .nothing
  else if progress.recv then .info "Cannot suspend receiving transfer"
  else .sendCommand (.suspendTransfer progress.deviceAddress)

/-- `progressView.resumeTransfer`, analogous to suspend. -/
def resumeTransferAction (props : ObjectPushData)
    (progress : ProgressIndicator) : UIAction :=
  if macIsNil props.eventData.address then .nothing
  else if progress.recv then .info "Cannot resume receiving transfer"
  else .sendCommand (.resumeTransfer progress.deviceAddress)

/-- `progressView.cancelTransfer`: no-op without a selection; otherwise
the cancel command is forwarded - there is no receiving check. -/
def cancelTransferAction (props : ObjectPushData)
    (progress : ProgressIndicator) : UIAction :=
  if macIsNil props.eventData.address then .nothing
  else .sendCommand (.cancelTransfer progress.deviceAddress)

/-- `obexObjectPush.check` (shim/obex.go): reject when the session is
closed, or when the provider does not advertise the send-file feature;
the transfer direction is not consulted. -/
def obexCheck (s : ShimState) : Except BtError Unit :=
  if s.sessionClosed then .error .sessionNotExist
  else
    match s.features with
    | some fs => if Feature.sendFile ∈ fs then .ok () else .error .notSupported
    | none => .error .notSupported

/-- `obexObjectPush.CancelTransfer`: check, then submit the command. -/
def obexCancelTransfer (s : ShimState) (addr : List Nat) :
    Except BtError OppCommand :=
  match obexCheck s with
  | .error e => .error e
  | .ok () => .ok (.cancelTransfer addr)

/-- `obexObjectPush.SuspendTransfer`. -/
def obexSuspendTransfer (s : ShimState) (addr : List Nat) :
    Except BtError OppCommand :=
  match obexCheck s with
  | .error e => .error e
  | .ok () => .ok (.suspendTransfer addr)

/-- `obexObjectPush.ResumeTransfer`. -/
def obexResumeTransfer (s : ShimState) (addr : List Nat) :
    Except BtError OppCommand :=
  match obexCheck s with
  | .error e => .error e
  | .ok () => .ok (.resumeTransfer addr)

/-- An inbound transfer under way. -/
def recvProps : ObjectPushData :=
  ⟨"f.png", "image/png", "/cache/obex/f.png", true,
   ⟨[6, 5, 4, 3, 2, 1], .active, 100, 10, "t1", "s1"⟩⟩

/-- The progress indicator of `recvProps`. -/
def recvProgress : ProgressIndicator := ⟨true, [6, 5, 4, 3, 2, 1]⟩

/-- The inbound transfer of `recvProps` once completed. -/
def recvDoneProps : ObjectPushData :=
  ⟨"f.png", "image/png", "/cache/obex/f.png", true,
   ⟨[6, 5, 4, 3, 2, 1], .complete, 100, 100, "t1", "s1"⟩⟩

/-- C4 counterexample: on an inbound transfer the cancel path forwards
the cancel command to the provider instead of rejecting it, both at the
UI layer (no receiving check) and at the shim layer (whose check only
looks at session state and the send-file feature); and suspend rejects
with an informational message, not with a not-supported error. -/
theorem C4_cancel_inbound_not_rejected :
    cancelTransferAction recvProps recvProgress
      = .sendCommand (.cancelTransfer [6, 5, 4, 3, 2, 1])
    ∧ obexCancelTransfer runningSession [6, 5, 4, 3, 2, 1]
      = .ok (.cancelTransfer [6, 5, 4, 3, 2, 1])
    ∧ suspendTransferAction recvProps recvProgress
      = .info "Cannot suspend receiving transfer" :=
  ⟨rfl, rfl, rfl⟩

/-- C4 (amended): on an inbound transfer with a selected row, suspend
and resume are rejected in the UI with an informational message and no
command is issued; cancel is forwarded to the provider regardless of the
direction; and the shim layer forwards all three whenever its check
passes - no layer produces a not-supported error from the receiving
flag. -/
theorem C4_transfer_operation_guards (props : ObjectPushData)
    (progress : ProgressIndicator) (s : ShimState) (addr : List Nat)
    (hnil : macIsNil props.eventData.address = false)
    (hrecv : progress.recv = true) :
    suspendTransferAction props progress
      = .info "Cannot suspend receiving transfer"
    ∧ resumeTransferAction props progress
      = .info "Cannot resume receiving transfer"
    ∧ cancelTransferAction props progress
      = .sendCommand (.cancelTransfer progress.deviceAddress)
    ∧ (obexCheck s = .ok () →
        obexCancelTransfer s addr = .ok (.cancelTransfer addr)
        ∧ obexSuspendTransfer s addr = .ok (.suspendTransfer addr)
        ∧ obexResumeTransfer s addr = .ok (.resumeTransfer addr)) := by
  refine ⟨?_, ?_, ?_, ?_⟩
  · simp [suspendTransferAction, hnil, hrecv]
  · simp [resumeTransferAction, hnil, hrecv]
  · simp [cancelTransferAction, hnil]
  · intro hok
    simp [obexCancelTransfer, obexSuspendTransfer, obexResumeTransfer, hok]

/-- Witness for C4 on the concrete inbound transfer. -/
theorem C4_transfer_operation_guards_witness :
    resumeTransferAction recvProps recvProgress
      = .info "Cannot resume receiving transfer"
    ∧ obexSuspendTransfer runningSession [6, 5, 4, 3, 2, 1]
      = .ok (.suspendTransfer [6, 5, 4, 3, 2, 1]) :=
  ⟨(C4_transfer_operation_guards recvProps recvProgress runningSession
      [6, 5, 4, 3, 2, 1] rfl rfl).2.1,
   ((C4_transfer_operation_guards recvProps recvProgress runningSession
      [6, 5, 4, 3, 2, 1] rfl rfl).2.2.2 rfl).2.1⟩

/-! ## Saving received files
(ui/app/views/progressview.go `savefile` and the guard in
`removeProgress`)

The filesystem is abstracted to a map from file paths to content
identifiers plus a map from directory paths to modes.  `os.Rename` is a
move of the content binding; `os.Mkdir` adds a directory binding;
`os.Stat` succeeds when the path is bound either way. -/

/-- The abstract filesystem. -/
structure SaveFS where
  files : List (String × Nat)
  dirs : List (String × Nat)
  deriving DecidableEq, Repr

/-- `os.Stat` succeeding. -/
def fsStatOk (p : String) (fs : SaveFS) : Bool :=
  (alistLoad p fs.files).isSome || (alistLoad p fs.dirs).isSome

/-- `os.Rename`: move the content binding from the old path to the new
path; fails when the source does not exist. -/
def fsRename (oldPath newPath : String) (fs : SaveFS) : Except BtError SaveFS :=
  match alistLoad oldPath fs.files with
  | none => .error .ioError
  | some content =>
    .ok ⟨alistStore newPath content (alistDelete oldPath fs.files), fs.dirs⟩

/-- `savefile`: when no receive directory is configured, default to
`bluetuith` under the user home directory, creating it with mode 0700
when `os.Stat` fails; then rename the cached file into the directory
under its base name.  A missing home directory surfaces the OS error. -/
def savefile (path userpath : String) (homedir : Option String)
    (fs : SaveFS) : Except BtError SaveFS :=
  if userpath = "" then
    match homedir with
    | none => .error .ioError
    | some hd =>
      let up := goJoin hd "bluetuith"
      let fs2 := if fsStatOk up fs then fs
                 else { fs with dirs := alistStore up 0o700 fs.dirs }
      fsRename path (goJoin up (goBase path)) fs2
  else
    fsRename path (goJoin userpath (goBase path)) fs

/-- The guard in `removeProgress`: the received file is saved exactly
when the filename is non-empty, the transfer completed, and the transfer
was inbound. -/
def removeProgressSave (props : ObjectPushData) (receiveDir : String)
    (homedir : Option String) (fs : SaveFS) : Option (Except BtError SaveFS) :=
  if props.filename ≠ "" ∧ props.eventData.status = .complete ∧ props.receiving then
    some (savefile props.filename receiveDir homedir fs)
  else none

theorem alistLoad_eq_none_of_not_mem {K V : Type} [DecidableEq K] {k : K}
    (m : List (K × V)) (h : k ∉ m.map Prod.fst) : alistLoad k m = none := by
  induction m with
  | nil => rfl
  | cons kv rest ih =>
    obtain ⟨k2, v2⟩ := kv
    simp only [List.map_cons, List.mem_cons] at h
    push_neg at h
    have hne : ¬ k2 = k := fun hh => h.1 hh.symm
    simp only [alistLoad, if_neg hne]
    exact ih h.2

theorem alistLoad_alistDelete_self {K V : Type} [DecidableEq K] (k : K)
    (m : List (K × V)) (h : (m.map Prod.fst).Nodup) :
    alistLoad k (alistDelete k m) = none := by
  induction m with
  | nil => rfl
  | cons kv rest ih =>
    obtain ⟨k2, v2⟩ := kv
    simp only [List.map_cons, List.nodup_cons] at h
    by_cases hk : k2 = k
    · subst hk
      simp only [alistDelete, if_pos rfl]
      exact alistLoad_eq_none_of_not_mem rest h.1
    · rw [show alistDelete k ((k2, v2) :: rest) = (k2, v2) :: alistDelete k rest by
        simp [alistDelete, hk]]
      rw [show alistLoad k ((k2, v2) :: alistDelete k rest)
          = alistLoad k (alistDelete k rest) by simp [alistLoad, hk]]
      exact ih h.2

theorem alistLoad_alistStore_ne {K V : Type} [DecidableEq K] {k k' : K}
    (v : V) (m : List (K × V)) (h : k' ≠ k) :
    alistLoad k' (alistStore k v m) = alistLoad k' m := by
  have hkk : ¬ k = k' := fun hh => h hh.symm
  induction m with
  | nil => simp [alistStore, alistLoad, hkk]
  | cons kv rest ih =>
    obtain ⟨k2, v2⟩ := kv
    by_cases hk : k2 = k
    · subst hk
      simp [alistStore, alistLoad, hkk]
    · simp only [alistStore, if_neg hk, alistLoad]
      by_cases hk2 : k2 = k'
      · simp [hk2]
      · simp only [if_neg hk2]
        exact ih

/-- C9: when an inbound transfer with a non-empty cached filename
reaches the complete status, the core performs the save; the save moves
the cached file, by a rename, into the configured receive directory
(under its base name), or - when no directory is configured - into
`bluetuith` under the home directory, creating that directory with mode
0700 when it does not exist. -/
theorem C9_savefile_semantics (props : ObjectPushData) (receiveDir hd : String)
    (fs : SaveFS) (content : Nat)
    (hrecv : props.receiving = true)
    (hstat : props.eventData.status = .complete)
    (hname : props.filename ≠ "")
    (hsrc : alistLoad props.filename fs.files = some content) :
    removeProgressSave props receiveDir (some hd) fs
      = some (savefile props.filename receiveDir (some hd) fs)
    ∧ (receiveDir ≠ "" →
        ∃ fs2, savefile props.filename receiveDir (some hd) fs = .ok fs2
          ∧ alistLoad (goJoin receiveDir (goBase props.filename)) fs2.files
              = some content
          ∧ fs2.dirs = fs.dirs
          ∧ (props.filename ≠ goJoin receiveDir (goBase props.filename) →
              (fs.files.map Prod.fst).Nodup →
              alistLoad props.filename fs2.files = none))
    ∧ (receiveDir = "" →
        ∃ fs2, savefile props.filename "" (some hd) fs = .ok fs2
          ∧ alistLoad (goJoin (goJoin hd "bluetuith") (goBase props.filename))
              fs2.files = some content
          ∧ (fsStatOk (goJoin hd "bluetuith") fs = false →
              alistLoad (goJoin hd "bluetuith") fs2.dirs = some 0o700)) := by
  refine ⟨?_, ?_, ?_⟩
  · simp [removeProgressSave, hname, hstat, hrecv]
  · intro hdir
    refine ⟨⟨alistStore (goJoin receiveDir (goBase props.filename)) content
        (alistDelete props.filename fs.files), fs.dirs⟩, ?_, ?_, rfl, ?_⟩
    · simp [savefile, hdir, fsRename, hsrc]
    · exact alistLoad_alistStore_self _ _ _
    · intro hne hnodup
      rw [alistLoad_alistStore_ne _ _ hne]
      exact alistLoad_alistDelete_self _ _ hnodup
  · intro hdir
    by_cases hstatok : fsStatOk (goJoin hd "bluetuith") fs = true
    · refine ⟨⟨alistStore (goJoin (goJoin hd "bluetuith") (goBase props.filename))
          content (alistDelete props.filename fs.files), fs.dirs⟩, ?_, ?_, ?_⟩
      · simp [savefile, fsRename, hsrc, hstatok]
      · exact alistLoad_alistStore_self _ _ _
      · intro habs
        rw [habs] at hstatok
        cases hstatok
    · refine ⟨⟨alistStore (goJoin (goJoin hd "bluetuith") (goBase props.filename))
          content (alistDelete props.filename fs.files),
          alistStore (goJoin hd "bluetuith") 0o700 fs.dirs⟩, ?_, ?_, ?_⟩
      · simp only [Bool.not_eq_true] at hstatok
        simp [savefile, fsRename, hsrc, hstatok]
      · exact alistLoad_alistStore_self _ _ _
      · intro _
        exact alistLoad_alistStore_self _ _ _

/-- Witness for C9 on a concrete filesystem, in the default-directory
case. -/
theorem C9_savefile_semantics_witness :
    ∃ fs2, savefile "/cache/obex/f.png" "" (some "/home/u")
        ⟨[("/cache/obex/f.png", 77)], []⟩ = .ok fs2
      ∧ alistLoad (goJoin (goJoin "/home/u" "bluetuith") (goBase "/cache/obex/f.png"))
          fs2.files = some 77
      ∧ (fsStatOk (goJoin "/home/u" "bluetuith")
            (⟨[("/cache/obex/f.png", 77)], []⟩ : SaveFS) = false →
          alistLoad (goJoin "/home/u" "bluetuith") fs2.dirs = some 0o700) :=
  (C9_savefile_semantics recvDoneProps "" "/home/u"
    ⟨[("/cache/obex/f.png", 77)], []⟩ 77 rfl rfl (by decide) rfl).2.2 rfl

/-! ## RPC event dispatch (shim/adapter.go handleListenerEvent)

Decoded adapter and device events from the socket drive store updates
and event-bus publications.  The `AdapterProperties` command round trip
performed inside the adapter `Added` branch is modelled by an oracle. -/

/-- `DeviceTypeFromClass` (device class decoding). -/
def deviceTypeFromClass (c : Nat) : String :=
  match (c &&& 0x1f00) >>> 8 with
  | 0x01 => "Computer"
  | 0x02 =>
    match (c &&& 0xfc) >>> 2 with
    | 0x01 | 0x02 | 0x03 | 0x05 => "Phone"
    | 0x04 => "Modem"
    | _ => "Unknown"
  | 0x03 => "Network"
  | 0x04 =>
    match (c &&& 0xfc) >>> 2 with
    | 0x01 | 0x02 => "Headset"
    | 0x05 => "Speakers"
    | 0x06 => "Headphones"
    | 0x0b | 0x0c | 0x0d => "Video"
    | _ => "Audio device"
  | 0x05 =>
    match (c &&& 0xc0) >>> 6 with
    | 0x00 =>
      match (c &&& 0x1e) >>> 2 with
      | 0x01 | 0x02 => "Gaming input"
      | 0x03 => "Remote control"
      | _ => "Unknown"
    | 0x01 => "Keyboard"
    | 0x02 =>
      match (c &&& 0x1e) >>> 2 with
      | 0x05 => "Tablet"
      | _ => "Mouse"
    | _ => "Unknown"
  | 0x06 =>
    if c &&& 0x80 > 0 then "Printer"
    else if c &&& 0x40 > 0 then "Scanner"
    else if c &&& 0x20 > 0 then "Camera"
    else if c &&& 0x10 > 0 then "Monitor"
    else "Unknown"
  | 0x07 => "Wearable"
  | 0x08 => "Toy"
  | _ => "Unknown"

/-- `EventAction` values carried by wire events. -/
inductive EventAction where
  | added
  | updated
  | removed
  deriving DecidableEq, Repr

/-- A publication on the event bus: the stream, the action and the
payload, as produced by the `Publish{Added,Updated,Removed}` calls. -/
inductive Publication where
  | errorEv (e : BtError)
  | adapterAdded (d : AdapterData)
  | adapterUpdated (d : AdapterEventData)
  | adapterRemoved (d : AdapterEventData)
  | deviceAdded (d : DeviceData)
  | deviceUpdated (d : DeviceEventData)
  | deviceRemoved (d : DeviceEventData)
  deriving DecidableEq, Repr

/-- A decoded adapter or device wire event: the action, the decoded
snapshot, and the raw-merge closure used by the `Updated` branch
(`events.UnmarshalRawEvent` merging the raw event into the event-data
part of the stored snapshot). -/
inductive ShimEvent where
  | adapterEv (action : EventAction) (data : AdapterData)
      (upd : AdapterEventData → Except BtError AdapterEventData)
  | deviceEv (action : EventAction) (data : DeviceData)
      (upd : DeviceEventData → Except BtError DeviceEventData)

/-- The merge closure passed to `UpdateAdapter` by the `Updated`
branch: unmarshal the raw event over the event-data part of the stored
snapshot. -/
def mergeAdapterRaw (upd : AdapterEventData → Except BtError AdapterEventData) :
    AdapterData → Except BtError AdapterData := fun dd =>
  match upd dd.eventData with
  | .error e => .error e
  | .ok ed => .ok { dd with eventData := ed }

/-- The merge closure passed to `UpdateDevice` by the `Updated`
branch. -/
def mergeDeviceRaw (upd : DeviceEventData → Except BtError DeviceEventData) :
    DeviceData → Except BtError DeviceData := fun dd =>
  match upd dd.eventData with
  | .error e => .error e
  | .ok ed => .ok { dd with eventData := ed }

/-- `handleListenerEvent`, adapter and device cases: the provider
`Added` action on the adapter stream publishes an *Updated* event
carrying the partial event data, then fetches the full snapshot (the
oracle) and stores it, publishing an error instead when the fetch
fails; the device `Added` action publishes an Added event with the full
snapshot (its type derived from the class) and stores it; `Updated`
actions merge into the store and publish the merged event data, or an
error when the entry is missing or the merge fails; `Removed` actions
publish the event data and delete the entry. -/
def handleListenerEvent (oracle : List Nat → Except BtError AdapterData)
    (st : SessionStore) : ShimEvent → SessionStore × List Publication
  | .adapterEv action data upd =>
    match action with
    | .added =>
      match oracle data.eventData.address with
      | .error e => (st, [.adapterUpdated data.eventData, .errorEv e])
      | .ok adapter => (st.AddAdapter adapter, [.adapterUpdated data.eventData])
    | .updated =>
      match st.UpdateAdapter data.eventData.address (mergeAdapterRaw upd) with
      | (.error e, st2) => (st2, [.errorEv e])
      | (.ok updated, st2) => (st2, [.adapterUpdated updated])
    | .removed =>
      (st.RemoveAdapter data.eventData.address, [.adapterRemoved data.eventData])
  | .deviceEv action data upd =>
    match action with
    | .added =>
      let device := { data with devType := deviceTypeFromClass data.deviceClass }
      (st.AddDevice device, [.deviceAdded device])
    | .updated =>
      match st.UpdateDevice data.eventData.address (mergeDeviceRaw upd) with
      | (.error e, st2) => (st2, [.errorEv e])
      | (.ok updated, st2) => (st2, [.deviceUpdated updated])
    | .removed =>
      (st.RemoveDevice data.eventData.address, [.deviceRemoved data.eventData])

/-- Process a trace of wire events in order, concatenating the
publications. -/
def processEvents (oracle : List Nat → Except BtError AdapterData) :
    SessionStore → List ShimEvent → SessionStore × List Publication
  | st, [] => (st, [])
  | st, e :: rest =>
    let r := handleListenerEvent oracle st e
    let r2 := processEvents oracle r.1 rest
    (r2.1, r.2 ++ r2.2)

/-- The raw-merge closure of a decoded device event preserves the
address field (the raw event carries the very address under which it was
decoded, or leaves the stored address untouched). -/
def devClosureOk : ShimEvent → Prop
  | .deviceEv _ _ upd => ∀ dd ed, upd dd = .ok ed → ed.address = dd.address
  | .adapterEv _ _ _ => True

/-- Every device binding in the store is keyed by its own address. -/
def DevStoreConsistent (st : SessionStore) : Prop :=
  ∀ kd ∈ st.devices, kd.2.eventData.address = kd.1

/-- The Added-before-Updated ordering for one device address within a
publication trace: wherever an Updated publication for the address
occurs, an Added publication (carrying a full snapshot) for the same
address occurs strictly earlier. -/
def AddedBeforeUpdated (addr : List Nat) (pubs : List Publication) : Prop :=
  ∀ l1 e l2, pubs = l1 ++ Publication.deviceUpdated e :: l2 →
    e.address = addr →
    ∃ d, Publication.deviceAdded d ∈ l1 ∧ d.eventData.address = addr

/-- The identity raw-merge closure on adapter event data. -/
def idUpdA : AdapterEventData → Except BtError AdapterEventData := fun ed => .ok ed

/-- The identity raw-merge closure on device event data. -/
def idUpdD : DeviceEventData → Except BtError DeviceEventData := fun ed => .ok ed

/-- An oracle always returning the sample adapter. -/
def okOracle : List Nat → Except BtError AdapterData := fun _ => .ok sampleAdapter

/-- C8 counterexample: a provider adapter event with action Added makes
the RPC transport publish exactly one adapter event, with action
*Updated* (carrying the partial event data); no Added adapter event is
published, so subscribers cannot see Added before Updated for the
adapter. -/
theorem C8_adapter_added_publishes_updated_only :
    (handleListenerEvent okOracle SessionStore.new
        (.adapterEv .added sampleAdapter idUpdA)).2
      = [.adapterUpdated sampleAdapterED]
    ∧ ∀ p ∈ (handleListenerEvent okOracle SessionStore.new
        (.adapterEv .added sampleAdapter idUpdA)).2,
        ∀ a, p ≠ Publication.adapterAdded a := by
  refine ⟨rfl, ?_⟩
  intro p hp a
  rw [show (handleListenerEvent okOracle SessionStore.new
      (.adapterEv .added sampleAdapter idUpdA)).2
      = [.adapterUpdated sampleAdapterED] from rfl] at hp
  simp only [List.mem_singleton] at hp
  rw [hp]
  intro hcontra
  cases hcontra

theorem alistLoad_mem {K V : Type} [DecidableEq K] {k : K} {v : V}
    {m : List (K × V)} (h : alistLoad k m = some v) : (k, v) ∈ m := by
  induction m with
  | nil => cases h
  | cons kv rest ih =>
    obtain ⟨k2, v2⟩ := kv
    by_cases hk : k2 = k
    · subst hk
      simp [alistLoad] at h
      subst h
      exact List.mem_cons_self _ _
    · simp only [alistLoad, if_neg hk] at h
      exact List.mem_cons_of_mem _ (ih h)

theorem mem_alistStore {K V : Type} [DecidableEq K] {k : K} {v : V}
    {kd : K × V} {m : List (K × V)} (h : kd ∈ alistStore k v m) :
    kd = (k, v) ∨ kd ∈ m := by
  induction m with
  | nil => simpa [alistStore] using h
  | cons kv2 rest ih =>
    obtain ⟨k2, v2⟩ := kv2
    by_cases hk : k2 = k
    · subst hk
      simp only [alistStore, if_pos rfl] at h
      rcases List.mem_cons.mp h with h2 | h2
      · exact Or.inl h2
      · exact Or.inr (List.mem_cons_of_mem _ h2)
    · simp only [alistStore, if_neg hk, List.mem_cons] at h
      rcases h with h | h
      · exact Or.inr (by simp [h])
      · rcases ih h with h2 | h2
        · exact Or.inl h2
        · exact Or.inr (List.mem_cons_of_mem _ h2)

theorem mem_alistDelete {K V : Type} [DecidableEq K] {k : K}
    {kd : K × V} {m : List (K × V)} (h : kd ∈ alistDelete k m) : kd ∈ m := by
  induction m with
  | nil => simp [alistDelete] at h
  | cons kv2 rest ih =>
    obtain ⟨k2, v2⟩ := kv2
    by_cases hk : k2 = k
    · simp only [alistDelete, if_pos hk] at h
      exact List.mem_cons_of_mem _ h
    · simp only [alistDelete, if_neg hk, List.mem_cons] at h
      rcases h with h | h
      · simp [h]
      · exact List.mem_cons_of_mem _ (ih h)

theorem alistLoad_none_alistDelete {K V : Type} [DecidableEq K] {k k' : K}
    {m : List (K × V)} (h : alistLoad k m = none) :
    alistLoad k (alistDelete k' m) = none := by
  induction m with
  | nil => rfl
  | cons kv2 rest ih =>
    obtain ⟨k2, v2⟩ := kv2
    by_cases hk : k2 = k
    · subst hk
      simp [alistLoad] at h
    · simp only [alistLoad, if_neg hk] at h
      by_cases hk2 : k2 = k'
      · simp only [alistDelete, if_pos hk2]
        exact h
      · simp only [alistDelete, if_neg hk2, alistLoad, if_neg hk]
        exact ih h

theorem abu_append {addr : List Nat} {p1 p2 : List Publication}
    (h1 : AddedBeforeUpdated addr p1)
    (h2 : ∀ e, Publication.deviceUpdated e ∈ p2 → e.address = addr →
      ∃ d, Publication.deviceAdded d ∈ p1 ∧ d.eventData.address = addr) :
    AddedBeforeUpdated addr (p1 ++ p2) := by
  intro l1 e l2 hsplit haddr
  rcases List.append_eq_append_iff.mp hsplit with ⟨a, ha1, ha2⟩ | ⟨c, hc1, hc2⟩
  · -- l1 = p1 ++ a, so the Updated element lies inside p2
    obtain ⟨d, hd, hda⟩ := h2 e (by rw [ha2]; simp) haddr
    exact ⟨d, by rw [ha1]; exact List.mem_append_left _ hd, hda⟩
  · -- p1 = l1 ++ c
    cases c with
    | nil =>
      have hp2 : p2 = Publication.deviceUpdated e :: l2 := by simpa using hc2.symm
      obtain ⟨d, hd, hda⟩ := h2 e (by rw [hp2]; simp) haddr
      refine ⟨d, ?_, hda⟩
      have hl1 : p1 = l1 := by simpa using hc1
      rw [← hl1]
      exact hd
    | cons x c2 =>
      simp only [List.cons_append] at hc2
      injection hc2 with hx hl2
      obtain ⟨d, hd, hda⟩ := h1 l1 e c2 (by rw [hc1, ← hx]) haddr
      exact ⟨d, hd, hda⟩

theorem updateAdapter_devices (st : SessionStore) (k : List Nat)
    (f : AdapterData → Except BtError AdapterData) :
    (st.UpdateAdapter k f).2.devices = st.devices := by
  rcases hl : alistLoad k st.adapters with _ | a
  · simp [SessionStore.UpdateAdapter, hl]
  · rcases hm : f a with e | m
    · simp [SessionStore.UpdateAdapter, hl, hm]
    · simp [SessionStore.UpdateAdapter, hl, hm]

theorem updateDevice_err {st : SessionStore} {k : List Nat}
    {f : DeviceData → Except BtError DeviceData} {e : BtError}
    {st2 : SessionStore} (h : st.UpdateDevice k f = (.error e, st2)) :
    st2 = st := by
  unfold SessionStore.UpdateDevice at h
  rcases hl : alistLoad k st.devices with _ | dd
  · simp only [hl, Prod.mk.injEq] at h
    exact h.2.symm
  · simp only [hl] at h
    rcases hm : f dd with e2 | merged
    · simp only [hm, Prod.mk.injEq] at h
      exact h.2.symm
    · simp only [hm, Prod.mk.injEq] at h
      cases h.1

theorem updateDevice_ok {st : SessionStore} {k : List Nat}
    {f : DeviceData → Except BtError DeviceData} {u : DeviceEventData}
    {st2 : SessionStore} (h : st.UpdateDevice k f = (.ok u, st2)) :
    ∃ dd merged, alistLoad k st.devices = some dd ∧ f dd = .ok merged
      ∧ u = merged.eventData
      ∧ st2 = { st with devices := alistStore k merged st.devices } := by
  unfold SessionStore.UpdateDevice at h
  rcases hl : alistLoad k st.devices with _ | dd
  · simp only [hl, Prod.mk.injEq] at h
    cases h.1
  · simp only [hl] at h
    rcases hm : f dd with e2 | merged
    · simp only [hm, Prod.mk.injEq] at h
      cases h.1
    · simp only [hm, Prod.mk.injEq, Except.ok.injEq] at h
      exact ⟨dd, merged, rfl, hm, h.1.symm, h.2.symm⟩

theorem mergeDeviceRaw_ok {upd : DeviceEventData → Except BtError DeviceEventData}
    {dd merged : DeviceData} (h : mergeDeviceRaw upd dd = .ok merged) :
    ∃ ed, upd dd.eventData = .ok ed ∧ merged = { dd with eventData := ed } := by
  unfold mergeDeviceRaw at h
  rcases hu : upd dd.eventData with e | ed
  · simp [hu] at h
  · simp only [hu, Except.ok.injEq] at h
    exact ⟨ed, rfl, h.symm⟩

theorem handle_adapter_added_err {oracle : List Nat → Except BtError AdapterData}
    {st : SessionStore} {data : AdapterData} {e : BtError}
    {upd : AdapterEventData → Except BtError AdapterEventData}
    (h : oracle data.eventData.address = .error e) :
    handleListenerEvent oracle st (.adapterEv .added data upd)
      = (st, [.adapterUpdated data.eventData, .errorEv e]) := by
  simp [handleListenerEvent, h]

theorem handle_adapter_added_ok {oracle : List Nat → Except BtError AdapterData}
    {st : SessionStore} {data adapter : AdapterData}
    {upd : AdapterEventData → Except BtError AdapterEventData}
    (h : oracle data.eventData.address = .ok adapter) :
    handleListenerEvent oracle st (.adapterEv .added data upd)
      = (st.AddAdapter adapter, [.adapterUpdated data.eventData]) := by
  simp [handleListenerEvent, h]

theorem handle_adapter_updated_err {oracle : List Nat → Except BtError AdapterData}
    {st st2 : SessionStore} {data : AdapterData} {e : BtError}
    {upd : AdapterEventData → Except BtError AdapterEventData}
    (h : st.UpdateAdapter data.eventData.address (mergeAdapterRaw upd)
      = (.error e, st2)) :
    handleListenerEvent oracle st (.adapterEv .updated data upd)
      = (st2, [.errorEv e]) := by
  simp [handleListenerEvent, h]

theorem handle_adapter_updated_ok {oracle : List Nat → Except BtError AdapterData}
    {st st2 : SessionStore} {data : AdapterData} {u : AdapterEventData}
    {upd : AdapterEventData → Except BtError AdapterEventData}
    (h : st.UpdateAdapter data.eventData.address (mergeAdapterRaw upd)
      = (.ok u, st2)) :
    handleListenerEvent oracle st (.adapterEv .updated data upd)
      = (st2, [.adapterUpdated u]) := by
  simp [handleListenerEvent, h]

theorem handle_adapter_removed {oracle : List Nat → Except BtError AdapterData}
    {st : SessionStore} {data : AdapterData}
    {upd : AdapterEventData → Except BtError AdapterEventData} :
    handleListenerEvent oracle st (.adapterEv .removed data upd)
      = (st.RemoveAdapter data.eventData.address,
         [.adapterRemoved data.eventData]) := rfl

theorem handle_device_added {oracle : List Nat → Except BtError AdapterData}
    {st : SessionStore} {data : DeviceData}
    {upd : DeviceEventData → Except BtError DeviceEventData} :
    handleListenerEvent oracle st (.deviceEv .added data upd)
      = (st.AddDevice { data with devType := deviceTypeFromClass data.deviceClass },
         [.deviceAdded { data with devType := deviceTypeFromClass data.deviceClass }]) := rfl

theorem handle_device_updated_err {oracle : List Nat → Except BtError AdapterData}
    {st st2 : SessionStore} {data : DeviceData} {e : BtError}
    {upd : DeviceEventData → Except BtError DeviceEventData}
    (h : st.UpdateDevice data.eventData.address (mergeDeviceRaw upd)
      = (.error e, st2)) :
    handleListenerEvent oracle st (.deviceEv .updated data upd)
      = (st2, [.errorEv e]) := by
  simp [handleListenerEvent, h]

theorem handle_device_updated_ok {oracle : List Nat → Except BtError AdapterData}
    {st st2 : SessionStore} {data : DeviceData} {u : DeviceEventData}
    {upd : DeviceEventData → Except BtError DeviceEventData}
    (h : st.UpdateDevice data.eventData.address (mergeDeviceRaw upd)
      = (.ok u, st2)) :
    handleListenerEvent oracle st (.deviceEv .updated data upd)
      = (st2, [.deviceUpdated u]) := by
  simp [handleListenerEvent, h]

theorem handle_device_removed {oracle : List Nat → Except BtError AdapterData}
    {st : SessionStore} {data : DeviceData}
    {upd : DeviceEventData → Except BtError DeviceEventData} :
    handleListenerEvent oracle st (.deviceEv .removed data upd)
      = (st.RemoveDevice data.eventData.address,
         [.deviceRemoved data.eventData]) := rfl

/-- One dispatch step preserves the device-store consistency, publishes
a device Updated only for devices already present (and hence already
announced), keeps track of which device additions were announced, and
never publishes an adapter Added. -/
theorem handle_step (oracle : List Nat → Except BtError AdapterData)
    (st : SessionStore) (ev : ShimEvent) (addr : List Nat)
    (acc : List Publication)
    (hcons : DevStoreConsistent st)
    (hclos : devClosureOk ev)
    (hpresent : alistLoad addr st.devices ≠ none →
      ∃ d, Publication.deviceAdded d ∈ acc ∧ d.eventData.address = addr) :
    DevStoreConsistent (handleListenerEvent oracle st ev).1
    ∧ (∀ e, Publication.deviceUpdated e ∈ (handleListenerEvent oracle st ev).2 →
        e.address = addr →
        ∃ d, Publication.deviceAdded d ∈ acc ∧ d.eventData.address = addr)
    ∧ (alistLoad addr (handleListenerEvent oracle st ev).1.devices ≠ none →
        ∃ d, Publication.deviceAdded d ∈ acc ++ (handleListenerEvent oracle st ev).2
          ∧ d.eventData.address = addr)
    ∧ (∀ p ∈ (handleListenerEvent oracle st ev).2, ∀ a,
        p ≠ Publication.adapterAdded a) := by
  have noDevUp : ∀ (e2 : DeviceEventData) (x : BtError), Publication.errorEv x
      ≠ Publication.deviceUpdated e2 := fun _ _ h => by cases h
  cases ev with
  | adapterEv action data upd =>
    have key : (handleListenerEvent oracle st (.adapterEv action data upd)).1.devices
        = st.devices
        ∧ ∀ p ∈ (handleListenerEvent oracle st (.adapterEv action data upd)).2,
            (∀ e, p ≠ Publication.deviceUpdated e)
            ∧ (∀ a, p ≠ Publication.adapterAdded a) := by
      cases action with
      | added =>
        rcases hor : oracle data.eventData.address with e | adapter
        · rw [handle_adapter_added_err hor]
          refine ⟨rfl, ?_⟩
          intro p hp
          rcases List.mem_cons.mp hp with rfl | hp2
          · exact ⟨(fun e2 h => nomatch h), (fun a h => nomatch h)⟩
          rcases List.mem_cons.mp hp2 with rfl | hp3
          · exact ⟨(fun e2 h => nomatch h), (fun a h => nomatch h)⟩
          cases hp3
        · rw [handle_adapter_added_ok hor]
          refine ⟨rfl, ?_⟩
          intro p hp
          rcases List.mem_cons.mp hp with rfl | hp2
          · exact ⟨(fun e2 h => nomatch h), (fun a h => nomatch h)⟩
          cases hp2
      | updated =>
        rcases hu : st.UpdateAdapter data.eventData.address (mergeAdapterRaw upd)
          with ⟨res, st2⟩
        have hdev2 : st2.devices = st.devices := by
          have h2 := updateAdapter_devices st data.eventData.address (mergeAdapterRaw upd)
          rw [hu] at h2
          exact h2
        rcases res with e | u
        · rw [handle_adapter_updated_err hu]
          refine ⟨hdev2, ?_⟩
          intro p hp
          rcases List.mem_cons.mp hp with rfl | hp2
          · exact ⟨(fun e2 h => nomatch h), (fun a h => nomatch h)⟩
          cases hp2
        · rw [handle_adapter_updated_ok hu]
          refine ⟨hdev2, ?_⟩
          intro p hp
          rcases List.mem_cons.mp hp with rfl | hp2
          · exact ⟨(fun e2 h => nomatch h), (fun a h => nomatch h)⟩
          cases hp2
      | removed =>
        rw [handle_adapter_removed]
        refine ⟨rfl, ?_⟩
        intro p hp
        rcases List.mem_cons.mp hp with rfl | hp2
        · exact ⟨(fun e2 h => nomatch h), (fun a h => nomatch h)⟩
        cases hp2
    refine ⟨?_, ?_, ?_, ?_⟩
    · intro kd hkd
      rw [key.1] at hkd
      exact hcons kd hkd
    · intro e he _
      exact absurd rfl ((key.2 _ he).1 e)
    · intro hne
      rw [key.1] at hne
      obtain ⟨d, hd, hda⟩ := hpresent hne
      exact ⟨d, List.mem_append_left _ hd, hda⟩
    · intro p hp a
      exact (key.2 p hp).2 a
  | deviceEv action data upd =>
    cases action with
    | added =>
      rw [handle_device_added]
      refine ⟨?_, ?_, ?_, ?_⟩
      · intro kd hkd
        rcases mem_alistStore hkd with heq | h2
        · rw [heq]
        · exact hcons kd h2
      · intro e he _
        rcases List.mem_cons.mp he with heq | h2
        · cases heq
        cases h2
      · intro hne
        by_cases haddr2 : data.eventData.address = addr
        · exact ⟨{ data with devType := deviceTypeFromClass data.deviceClass },
            List.mem_append_right _ (by simp), haddr2⟩
        · have hstill : alistLoad addr st.devices ≠ none := by
            intro hnone
            apply hne
            show alistLoad addr
              (alistStore data.eventData.address
                { data with devType := deviceTypeFromClass data.deviceClass }
                st.devices) = none
            rw [alistLoad_alistStore_ne _ _ (fun hh => haddr2 hh.symm)]
            exact hnone
          obtain ⟨d, hd, hda⟩ := hpresent hstill
          exact ⟨d, List.mem_append_left _ hd, hda⟩
      · intro p hp a
        rcases List.mem_cons.mp hp with rfl | h2
        · intro h; cases h
        cases h2
    | updated =>
      rcases hu : st.UpdateDevice data.eventData.address (mergeDeviceRaw upd)
        with ⟨res, st2⟩
      rcases res with e | u
      · have hst2 : st2 = st := updateDevice_err hu
        rw [handle_device_updated_err hu, hst2]
        refine ⟨hcons, ?_, ?_, ?_⟩
        · intro e2 he2 _
          rcases List.mem_cons.mp he2 with heq | h2
          · cases heq
          cases h2
        · intro hne
          obtain ⟨d, hd, hda⟩ := hpresent hne
          exact ⟨d, List.mem_append_left _ hd, hda⟩
        · intro p hp a
          rcases List.mem_cons.mp hp with rfl | h2
          · intro h; cases h
          cases h2
      · obtain ⟨dd, merged, hload, hmerge, huu, hst2⟩ := updateDevice_ok hu
        obtain ⟨ed, hupd, hmergedeq⟩ := mergeDeviceRaw_ok hmerge
        have hddaddr : dd.eventData.address = data.eventData.address :=
          hcons _ (alistLoad_mem hload)
        have hedaddr : ed.address = dd.eventData.address := hclos dd.eventData ed hupd
        have hmaddr : merged.eventData.address = data.eventData.address := by
          rw [hmergedeq]
          exact hedaddr.trans hddaddr
        rw [handle_device_updated_ok hu, hst2]
        refine ⟨?_, ?_, ?_, ?_⟩
        · intro kd hkd
          rcases mem_alistStore hkd with heq | h2
          · rw [heq]
            exact hmaddr
          · exact hcons kd h2
        · intro e2 he2 haddr2
          rcases List.mem_cons.mp he2 with heq | h2
          · have he2u : e2 = u := by injection heq
            have hkey : data.eventData.address = addr := by
              rw [← hmaddr, ← huu, ← he2u]
              exact haddr2
            rw [hkey] at hload
            exact hpresent (by rw [hload]; simp)
          cases h2
        · intro hne
          by_cases hkey : data.eventData.address = addr
          · rw [hkey] at hload
            obtain ⟨d, hd, hda⟩ := hpresent (by rw [hload]; simp)
            exact ⟨d, List.mem_append_left _ hd, hda⟩
          · have hstill : alistLoad addr st.devices ≠ none := by
              intro hnone
              apply hne
              show alistLoad addr
                (alistStore data.eventData.address merged st.devices) = none
              rw [alistLoad_alistStore_ne _ _ (fun hh => hkey hh.symm)]
              exact hnone
            obtain ⟨d, hd, hda⟩ := hpresent hstill
            exact ⟨d, List.mem_append_left _ hd, hda⟩
        · intro p hp a
          rcases List.mem_cons.mp hp with rfl | h2
          · intro h; cases h
          cases h2
    | removed =>
      rw [handle_device_removed]
      refine ⟨?_, ?_, ?_, ?_⟩
      · intro kd hkd
        exact hcons kd (mem_alistDelete hkd)
      · intro e2 he2 _
        rcases List.mem_cons.mp he2 with heq | h2
        · cases heq
        cases h2
      · intro hne
        have hstill : alistLoad addr st.devices ≠ none := by
          intro hnone
          exact hne (alistLoad_none_alistDelete hnone)
        obtain ⟨d, hd, hda⟩ := hpresent hstill
        exact ⟨d, List.mem_append_left _ hd, hda⟩
      · intro p hp a
        rcases List.mem_cons.mp hp with rfl | h2
        · intro h; cases h
        cases h2

theorem processEvents_invariant (oracle : List Nat → Except BtError AdapterData)
    (addr : List Nat) (events : List ShimEvent) :
    ∀ (st : SessionStore) (acc : List Publication),
      DevStoreConsistent st →
      (∀ ev ∈ events, devClosureOk ev) →
      AddedBeforeUpdated addr acc →
      (alistLoad addr st.devices ≠ none →
        ∃ d, Publication.deviceAdded d ∈ acc ∧ d.eventData.address = addr) →
      AddedBeforeUpdated addr (acc ++ (processEvents oracle st events).2)
      ∧ ∀ p ∈ (processEvents oracle st events).2, ∀ a,
          p ≠ Publication.adapterAdded a := by
  induction events with
  | nil =>
    intro st acc _ _ habu _
    refine ⟨?_, ?_⟩
    · rw [show (processEvents oracle st []).2 = [] from rfl, List.append_nil]
      exact habu
    · intro p hp
      rw [show (processEvents oracle st []).2 = [] from rfl] at hp
      exact absurd hp (List.not_mem_nil p)
  | cons ev rest ih =>
    intro st acc hcons hclos habu hpresent
    obtain ⟨hA, hB, hC, hD⟩ :=
      handle_step oracle st ev addr acc hcons (hclos ev (by simp)) hpresent
    have hclos2 : ∀ x ∈ rest, devClosureOk x :=
      fun x hx => hclos x (by simp [hx])
    have habu2 : AddedBeforeUpdated addr
        (acc ++ (handleListenerEvent oracle st ev).2) := abu_append habu hB
    obtain ⟨hABU, hNoAdd⟩ := ih (handleListenerEvent oracle st ev).1
      (acc ++ (handleListenerEvent oracle st ev).2) hA hclos2 habu2 hC
    have hsplit : (processEvents oracle st (ev :: rest)).2
        = (handleListenerEvent oracle st ev).2
          ++ (processEvents oracle (handleListenerEvent oracle st ev).1 rest).2 := rfl
    refine ⟨?_, ?_⟩
    · rw [hsplit, ← List.append_assoc]
      exact hABU
    · intro p hp a
      rw [hsplit] at hp
      rcases List.mem_append.mp hp with h | h
      · exact hD p h a
      · exact hNoAdd p h a

/-- C8 (amended): over any trace of decoded wire events whose device
merge closures preserve the address (as the raw unmarshal does), and
starting from a consistent store in which a device address is not yet
present, the publications of the RPC transport satisfy: every device
Updated publication for that address is strictly preceded by a device
Added publication (carrying the full snapshot) for it; but no adapter
Added publication is ever produced - a provider adapter event with
action Added is republished as an adapter *Updated* event, so for
adapters subscribers never see Added before Updated. -/
theorem C8_rpc_publication_order (oracle : List Nat → Except BtError AdapterData)
    (st0 : SessionStore) (events : List ShimEvent) (addr : List Nat)
    (hcons : DevStoreConsistent st0)
    (hclos : ∀ ev ∈ events, devClosureOk ev)
    (hnew : alistLoad addr st0.devices = none) :
    AddedBeforeUpdated addr (processEvents oracle st0 events).2
    ∧ ∀ p ∈ (processEvents oracle st0 events).2, ∀ a,
        p ≠ Publication.adapterAdded a := by
  have h := processEvents_invariant oracle addr events st0 [] hcons hclos
    (by intro l1 e l2 hs _; cases l1 <;> cases hs)
    (fun hne => absurd hnew hne)
  rwa [List.nil_append] at h

/-- Witness for C8 on a concrete two-event device trace. -/
theorem C8_rpc_publication_order_witness :
    AddedBeforeUpdated [6, 5, 4, 3, 2, 1]
      (processEvents okOracle SessionStore.new
        [.deviceEv .added sampleDevice idUpdD,
         .deviceEv .updated sampleDevice idUpdD]).2
    ∧ ∀ p ∈ (processEvents okOracle SessionStore.new
        [.deviceEv .added sampleDevice idUpdD,
         .deviceEv .updated sampleDevice idUpdD]).2, ∀ a,
        p ≠ Publication.adapterAdded a :=
  C8_rpc_publication_order okOracle SessionStore.new
    [.deviceEv .added sampleDevice idUpdD,
     .deviceEv .updated sampleDevice idUpdD] [6, 5, 4, 3, 2, 1]
    (by intro kd hkd; cases hkd)
    (by
      intro ev hev
      rcases List.mem_cons.mp hev with rfl | hev2
      · intro dd ed h
        cases h
        rfl
      rcases List.mem_cons.mp hev2 with rfl | hev3
      · intro dd ed h
        cases h
        rfl
      cases hev3)
    rfl

end Bluetuith
